import Mathlib

/-!
Shallow embedding of the clip-selection pipeline of src/services/clipper.js
(Viral-AI-Video-Clipper).  JS strings are embedded as List Char and JS
numbers as ℚ (exact rational arithmetic standing in for IEEE doubles; all
thresholds compared here leave margins far wider than double rounding).
Each definition mirrors one function or inline block of the source file.
-/

/-- Whitespace test matching the JS regex class \s on ASCII input. -/
def isWsChar (c : Char) : Bool :=
  c = ' ' || c = '\t' || c = '\n' || c = '\r' || c = '\x0b' || c = '\x0c'

/-- Sentence-terminator class [.!?] used throughout clipper.js. -/
def isSentPunct (c : Char) : Bool :=
  c = '.' || c = '!' || c = '?'

theorem lenDropWhileLe (p : Char → Bool) (l : List Char) :
    (l.dropWhile p).length ≤ l.length :=
  (List.dropWhile_sublist p).length_le

/-- Character list of a string literal. -/
def strL (s : String) : List Char := s.data

/-- JS String.prototype.trim on char lists. -/
def jsTrim (cs : List Char) : List Char :=
  ((cs.dropWhile isWsChar).reverse.dropWhile isWsChar).reverse

/-- Helper for jsSplitWs: accumulates the current piece (reversed). -/
def jsSplitWsAux : List Char → List Char → List (List Char)
  | [], acc => [acc.reverse]
  | c :: cs, acc =>
    if isWsChar c then acc.reverse :: jsSplitWsAux (cs.dropWhile isWsChar) []
    else jsSplitWsAux cs (c :: acc)
termination_by l _ => l.length
decreasing_by
  · simp only [List.length_cons]
    exact Nat.lt_succ_of_le (lenDropWhileLe _ _)
  · simp [Nat.lt_succ_self]

/-- JS text.split on the whitespace-run regex used by clipper.js: pieces
between maximal whitespace runs, with an empty piece at a leading or
trailing run; the empty string splits to one empty piece. -/
def jsSplitWs (cs : List Char) : List (List Char) :=
  jsSplitWsAux cs []

/-- The non-terminator run at the head of a string. -/
def preRun (l : List Char) : List Char :=
  l.takeWhile (fun d => !isSentPunct d)

/-- The terminator run following the leading non-terminator run. -/
def punctRun (l : List Char) : List Char :=
  (l.dropWhile (fun d => !isSentPunct d)).takeWhile isSentPunct

/-- What remains of the string after one sentence match. -/
def sentTail (l : List Char) : List Char :=
  (l.dropWhile (fun d => !isSentPunct d)).drop (punctRun l).length

theorem sentTail_length_lt (l : List Char) (hl : 1 ≤ l.length)
    (hp : ¬(punctRun l).isEmpty) : (sentTail l).length < l.length := by
  have h1 : (l.dropWhile (fun d => !isSentPunct d)).length ≤ l.length :=
    lenDropWhileLe _ _
  have h2 : 1 ≤ (punctRun l).length := by
    cases hq : punctRun l with
    | nil => simp [hq] at hp
    | cons a t => simp [hq]
  have h3 : (sentTail l).length =
      (l.dropWhile (fun d => !isSentPunct d)).length - (punctRun l).length :=
    List.length_drop _ _
  omega

/-- JS global match of one sentence regex step: sequences of non-terminator
characters followed by a run of terminators. -/
def sentSplitAux : List Char → List (List Char)
  | [] => []
  | c :: cs =>
    if isSentPunct c then sentSplitAux (cs.dropWhile isSentPunct)
    else if (punctRun (c :: cs)).isEmpty then []
    else (preRun (c :: cs) ++ punctRun (c :: cs)) :: sentSplitAux (sentTail (c :: cs))
termination_by l => l.length
decreasing_by
  · simp only [List.length_cons]
    exact Nat.lt_succ_of_le (lenDropWhileLe _ _)
  · rename_i h
    exact sentTail_length_lt (c :: cs) (by simp) h

/-- Model of transcriptText.match of the sentence regex, with a null match
returned as the empty list. -/
def sentSplit (cs : List Char) : List (List Char) := sentSplitAux cs

/-- JS Array.prototype.join with a single-space separator. -/
def joinSpace : List (List Char) → List Char
  | [] => []
  | [s] => s
  | s :: t :: rest => s ++ ' ' :: joinSpace (t :: rest)

/-- ASCII lowercasing, the model of JS toLowerCase. -/
def lowerL (cs : List Char) : List Char := cs.map Char.toLower

/-- JS String.prototype.includes for char lists. -/
def containsSeq (needle : List Char) : List Char → Bool
  | [] => needle.isEmpty
  | c :: cs => needle.isPrefixOf (c :: cs) || containsSeq needle cs

/-- JS String.prototype.indexOf restricted to substring search. -/
def indexOfSub (needle : List Char) : List Char → Option ℕ
  | [] => if needle.isEmpty then some 0 else none
  | c :: cs =>
    if needle.isPrefixOf (c :: cs) then some 0
    else (indexOfSub needle cs).map (· + 1)

/-- Case-insensitive alternation test: the model of an /i regex made of
plain literal alternatives (no anchors), as used for keyword tests. -/
def testAltCI (alts : List (List Char)) (text : List Char) : Bool :=
  alts.any (fun a => containsSeq a (lowerL text))

/-- Anchored alternation test: the model of an /^(a|b|...)/i regex. -/
def testAltPrefixCI (alts : List (List Char)) (text : List Char) : Bool :=
  alts.any (fun a => a.isPrefixOf (lowerL text))

/-- Word character class \w of JS regexes on ASCII input. -/
def isWordChar (c : Char) : Bool := c.isAlphanum || c = '_'

/-- One position of a word-boundary alternation match: some alternative is a
prefix here and the character after it (if any) is not a word character. -/
def wordAltAt (alts : List (List Char)) (cs : List Char) : Bool :=
  alts.any (fun a => a.isPrefixOf cs &&
    (match cs.drop a.length with
     | [] => true
     | d :: _ => !isWordChar d))

/-- Existence of a match of a word-bounded alternation regex; prev records
whether the previous character was a word character. -/
def hasWordAlt (alts : List (List Char)) : Bool → List Char → Bool
  | _, [] => false
  | prev, c :: cs =>
    (!prev && wordAltAt alts (c :: cs)) || hasWordAlt alts (isWordChar c) cs

/-- Length of the first alternative that is a prefix of cs, if any;
alternatives are tried in the order given, as a JS alternation does. -/
def firstAltAt (alts : List (List Char)) (cs : List Char) : Option ℕ :=
  match alts with
  | [] => none
  | a :: rest => if a.isPrefixOf cs then some a.length else firstAltAt rest cs

/-- Number of non-overlapping left-to-right matches of a plain literal
alternation, the model of (text.match(regex) or empty).length with a /g flag. -/
def countAltMatches (alts : List (List Char)) : List Char → ℕ
  | [] => 0
  | c :: cs =>
    match h : firstAltAt alts (c :: cs) with
    | some n =>
      if hn : n = 0 then countAltMatches alts cs
      else 1 + countAltMatches alts ((c :: cs).drop n)
    | none => countAltMatches alts cs
termination_by l => l.length
decreasing_by
  · simp [Nat.lt_succ_self]
  · have : 1 ≤ n := Nat.one_le_iff_ne_zero.mpr hn
    simp only [List.length_drop, List.length_cons]
    omega
  · simp [Nat.lt_succ_self]

/-- Clip duration parameters from src/config/constants.js. -/
def CLIP_MIN_DURATION : ℚ := 8

/-- Maximum configured clip duration (seconds). -/
def CLIP_MAX_DURATION : ℚ := 30

/-- Ideal configured clip duration (seconds). -/
def CLIP_IDEAL_DURATION : ℚ := 15

/-- The content categories returned by detectContentType. -/
inductive ContentType
  | music
  | educational
  | interview
  | generic
deriving DecidableEq, Repr

/-- Fallback duration categories assigned by fallbackClipSelection. -/
inductive DurCat
  | very_short
  | short
  | medium
  | long
deriving DecidableEq, Repr

/-- One clip/candidate/selection record.  The JS code passes duck-typed
objects whose field sets differ by path; the embedding uses one record with
neutral defaults for fields a given path leaves absent (absent string ~ [],
absent number ~ 0, absent optional ~ none -- matching JS falsiness). -/
structure Clip where
  text : List Char := []
  start : ℚ := 0
  endTime : ℚ := 0
  duration : ℚ := 0
  wordCount : ℕ := 0
  sentenceCount : ℕ := 0
  qualityScore : ℚ := 0
  viralScore : ℚ := 0
  finalScore : ℚ := 0
  endsWithCompleteSentence : Bool := false
  hasQuestion : Bool := false
  hasPowerfulWords : Bool := false
  hasNumbers : Bool := false
  reason : List Char := []
  targetAudience : Option (List Char) := none
  durationEffectiveness : List Char := []
  aiSelected : Bool := false
  durationCategory : Option DurCat := none
  completeEnding : Bool := false
deriving DecidableEq, Repr

/-- Keywords of the music branch of detectContentType. -/
def musicKeywordsList : List (List Char) :=
  [strL "chorus", strL "verse", strL "never gonna give you up", strL "lyrics",
   strL "singing", strL "song", strL "music", strL "beat", strL "melody", strL "rhyme"]

/-- Keywords of the educational branch of detectContentType. -/
def eduKeywordsList : List (List Char) :=
  [strL "learn", strL "teach", strL "strategy", strL "concept", strL "principle",
   strL "important", strL "key", strL "idea", strL "method", strL "technique",
   strL "framework", strL "step", strL "process", strL "solution"]

/-- Keywords of the interview branch of detectContentType. -/
def interviewKeywordsList : List (List Char) :=
  [strL "interview", strL "question", strL "answer", strL "asked",
   strL "tell me about", strL "talk about", strL "discussed", strL "conversation"]

/-- A repeated phrase with its occurrence count (findRepeatedPhrases entries). -/
structure PhraseCount where
  phrase : List Char
  count : ℕ
deriving DecidableEq, Repr

/-- Deduplication keeping first occurrences, the model of collecting JS
object keys (and Set elements) in insertion order. -/
def dedupKeepFirst {α : Type} [DecidableEq α] : List α → List α
  | [] => []
  | x :: xs => x :: dedupKeepFirst (xs.filter (fun y => y ≠ x))
termination_by l => l.length
decreasing_by
  simp only [List.length_cons]
  exact Nat.lt_succ_of_le (List.length_filter_le _ _)

/-- All lowercased n-grams of a given length over the word list. -/
def gramsOfLen (words : List (List Char)) (len : ℕ) : List (List Char) :=
  (List.range (words.length + 1 - len)).map
    (fun i => lowerL (joinSpace ((words.drop i).take len)))

/-- Phrases of one length that occur more than once, in first-seen order. -/
def phrasesOfLen (words : List (List Char)) (len : ℕ) : List PhraseCount :=
  let grams := gramsOfLen words len
  (dedupKeepFirst grams).filterMap (fun p =>
    let c := grams.count p
    if c > 1 then some ⟨p, c⟩ else none)

/-- findRepeatedPhrases: sliding n-grams of length 3..8 counted for
repetition, sorted by count descending (stable). -/
def findRepeatedPhrases (text : List Char) : List PhraseCount :=
  let words := jsSplitWs text
  let all := ((List.range 6).map (fun k => phrasesOfLen words (k + 3))).flatten
  List.mergeSort all (fun a b => b.count ≤ a.count)

/-- detectContentType from clipper.js: music, educational, interview,
generic -- first match wins in that order. -/
def detectContentType (text : List Char) : ContentType :=
  if testAltCI musicKeywordsList text = true ∨ 3 < (findRepeatedPhrases text).length then
    ContentType.music
  else if testAltCI eduKeywordsList text = true then ContentType.educational
  else if testAltCI interviewKeywordsList text = true then ContentType.interview
  else ContentType.generic

/-- The powerful-words alternation of createPotentialClips. -/
def powerfulWordsList : List (List Char) :=
  [strL "amazing", strL "incredible", strL "never", strL "always", strL "best",
   strL "worst", strL "must", strL "essential", strL "critical", strL "vital",
   strL "key", strL "revolutionary", strL "game-changing", strL "mind-blowing"]

/-- The word-bounded numbers alternation of createPotentialClips. -/
def numbersWordsList : List (List Char) :=
  [strL "one", strL "two", strL "three", strL "four", strL "five", strL "ten",
   strL "1", strL "2", strL "3", strL "4", strL "5", strL "10",
   strL "hundred", strL "thousand", strL "million", strL "billion"]

/-- hasPowerfulWords regex test of createPotentialClips. -/
def hasPowerfulWordsB (text : List Char) : Bool := testAltCI powerfulWordsList text

/-- hasNumbers word-bounded regex test of createPotentialClips. -/
def hasNumbersB (text : List Char) : Bool := hasWordAlt numbersWordsList false (lowerL text)

/-- endsWithCompleteSentence test of createPotentialClips: a sentence
terminator followed only by whitespace or quote characters at the end of the
trimmed text. -/
def endsCompleteB (text : List Char) : Bool :=
  match (jsTrim text).reverse.dropWhile (fun c => isWsChar c || c = '"' || c = '\x27') with
  | [] => false
  | c :: _ => isSentPunct c

/-- One candidate of createPotentialClips for the sentence group starting at
i with k sentences, or none when the word-count or duration gates reject it. -/
def mkTextClip (sentences : List (List Char)) (tpw : ℚ) (i k : ℕ) : Option Clip :=
  let group := (sentences.drop i).take k
  let text := joinSpace group
  let wordCount := (jsSplitWs text).length
  if wordCount < 5 then none else
  let wordsSoFar : ℕ := ((sentences.take i).map (fun s => (jsSplitWs s).length)).sum
  let ed : ℚ := wordCount * tpw
  let dsp : ℚ := min 1.5 (max 0.5 (ed * 0.05))
  let dep : ℚ := min 2.5 (max 1.0 (ed * 0.1))
  let estStart : ℚ := max 0 (wordsSoFar * tpw - dsp)
  let estEnd : ℚ := wordsSoFar * tpw + ed + dep
  let ad : ℚ := estEnd - estStart
  let minD : ℚ := max 5 (CLIP_MIN_DURATION * 0.7)
  let maxD : ℚ := min 60 (CLIP_MAX_DURATION * 1.5)
  if minD ≤ ad ∧ ad ≤ maxD then
    let dq : ℚ := 1 - |ad - CLIP_IDEAL_DURATION| / CLIP_IDEAL_DURATION
    let hq := text.contains '?'
    let hp := hasPowerfulWordsB text
    let hn := hasNumbersB text
    let ib : ℚ := (if hq then 0.1 else 0) + (if hp then 0.15 else 0) + (if hn then 0.1 else 0)
    let ec := endsCompleteB text
    let scb : ℚ := if ec then 0.5 else 0
    some { text := text, duration := ad, wordCount := wordCount, sentenceCount := k,
           start := estStart, endTime := estEnd, qualityScore := dq + ib + scb,
           hasQuestion := hq, hasPowerfulWords := hp, hasNumbers := hn,
           endsWithCompleteSentence := ec }
  else none

/-- The inner sliding-window loop of createPotentialClips for one group size. -/
def clipsForGroupSize (sentences : List (List Char)) (tpw : ℚ) (k : ℕ) : List Clip :=
  (List.range (sentences.length + 1 - k)).filterMap (fun i => mkTextClip sentences tpw i k)

/-- The outer loop of createPotentialClips over decreasing group sizes with
the early stop at 150 accumulated candidates. -/
def createGo (sentences : List (List Char)) (tpw : ℚ) : ℕ → List Clip → List Clip
  | 0, acc => acc
  | k + 1, acc =>
    let acc2 := acc ++ clipsForGroupSize sentences tpw (k + 1)
    if 150 ≤ acc2.length then acc2 else createGo sentences tpw k acc2

/-- createPotentialClips from clipper.js. -/
def createPotentialClips (sentences : List (List Char)) (tpw : ℚ)
    (contentType : ContentType) : List Clip :=
  let maxS : ℕ := if contentType = ContentType.music then 7 else 6
  createGo sentences tpw maxS []

/-- The timestamp-validation map of identifyClipsFromFullText. -/
def validateClip (maxTime : ℚ) (clip : Clip) : Clip :=
  let vStart := max 0 (min clip.start (maxTime - CLIP_MIN_DURATION * 0.7))
  let vEnd := min maxTime (max (vStart + CLIP_MIN_DURATION * 0.7) clip.endTime)
  { clip with start := vStart, endTime := vEnd, duration := vEnd - vStart }

/-- The validation bound of identifyClipsFromFullText: the (truthy) audio
duration, or 24 hours when absent or zero. -/
def maxTimeOf (audioDuration : Option ℚ) : ℚ :=
  match audioDuration with
  | some d => if d ≠ 0 then d else 86400
  | none => 86400

/-- The per-word timing of identifyClipsFromFullText. -/
def tpwOf (audioDuration : Option ℚ) (totalWords : ℕ) : ℚ :=
  match audioDuration with
  | some d => if d ≠ 0 ∧ 0 < totalWords then d / totalWords else 0.4
  | none => 0.4

/-- The candidate-generation stage of identifyClipsFromFullText: sentence
split, content-type detection, per-word timing, createPotentialClips, and
the timestamp validation pass.  audioDuration is the optional
audio_duration field; a present zero is falsy in JS and is handled as the
source does. -/
def textPathValidatedClips (text : List Char) (audioDuration : Option ℚ) : List Clip :=
  let sentences := sentSplit text
  if sentences.isEmpty then [] else
  let contentType := detectContentType text
  let totalWords := (jsSplitWs text).length
  (createPotentialClips sentences (tpwOf audioDuration totalWords) contentType).map
    (validateClip (maxTimeOf audioDuration))

instance : Inhabited Clip := ⟨{}⟩

/-- Spec-side impact bonus: question 0.10, powerful words 0.15, numbers 0.10. -/
def impactBonusOf (text : List Char) : ℚ :=
  (if text.contains '?' then 0.1 else 0) +
  (if hasPowerfulWordsB text then 0.15 else 0) +
  (if hasNumbersB text then 0.1 else 0)

/-- Spec-side text-path quality formula: duration quality plus impact bonus
plus the 0.5 sentence-completion bonus. -/
def specTextScore (d : ℚ) (text : List Char) : ℚ :=
  (1 - |d - CLIP_IDEAL_DURATION| / CLIP_IDEAL_DURATION) + impactBonusOf text +
  (if endsCompleteB text then 0.5 else 0)

theorem sentSplitAux_ends (cs : List Char) :
    ∀ s ∈ sentSplitAux cs, ∃ c, s.getLast? = some c ∧ isSentPunct c = true := by
  induction cs using sentSplitAux.induct with
  | case1 => intro s hs; simp [sentSplitAux] at hs
  | case2 c cs hpunct ih =>
    intro s hs
    rw [sentSplitAux, if_pos hpunct] at hs
    exact ih s hs
  | case3 c cs hpunct hempty =>
    intro s hs
    rw [sentSplitAux, if_neg hpunct, if_pos hempty] at hs
    simp at hs
  | case4 c cs hpunct hempty ih =>
    intro s hs
    rw [sentSplitAux, if_neg hpunct, if_neg hempty] at hs
    rcases List.mem_cons.mp hs with heq | htail
    · subst heq
      have hne : punctRun (c :: cs) ≠ [] := by
        intro hnil; rw [hnil] at hempty; simp at hempty
      cases hg : (punctRun (c :: cs)).getLast? with
      | none => exact absurd (List.getLast?_eq_none_iff.mp hg) hne
      | some a =>
        refine ⟨a, ?_, ?_⟩
        · rw [List.getLast?_append, hg]; rfl
        · exact List.mem_takeWhile_imp (List.mem_of_mem_getLast? hg)
    · exact ih s htail

theorem joinSpace_getLast? :
    ∀ (gs : List (List Char)) (s : List Char) (c : Char),
      gs.getLast? = some s → s.getLast? = some c →
      (joinSpace gs).getLast? = some c := by
  intro gs
  induction gs with
  | nil => intro s c hg; simp at hg
  | cons a t ih =>
    intro s c hg hs
    cases t with
    | nil =>
      simp at hg; subst hg; simpa [joinSpace] using hs
    | cons b u =>
      have hg' : (b :: u).getLast? = some s := by
        simpa [List.getLast?_cons_cons] using hg
      have hJ : (joinSpace (b :: u)).getLast? = some c := ih s c hg' hs
      show (a ++ ' ' :: joinSpace (b :: u)).getLast? = some c
      rw [List.getLast?_append]
      have : (' ' :: joinSpace (b :: u)).getLast? = some c := by
        cases hJu : joinSpace (b :: u) with
        | nil => rw [hJu] at hJ; simp at hJ
        | cons x y => rw [hJu] at hJ; rw [List.getLast?_cons_cons, hJ]
      rw [this]; rfl

theorem jsTrim_getLast? (cs : List Char) (c : Char) (h : cs.getLast? = some c)
    (hw : isWsChar c = false) : (jsTrim cs).getLast? = some c := by
  have hd : (cs.dropWhile isWsChar).getLast? = some c := by
    have hsplit := List.takeWhile_append_dropWhile isWsChar cs
    by_cases hnil : cs.dropWhile isWsChar = []
    · have hc : c ∈ cs := List.mem_of_mem_getLast? h
      have hc2 : c ∈ cs.takeWhile isWsChar ++ cs.dropWhile isWsChar := by
        rw [hsplit]; exact hc
      rcases List.mem_append.mp hc2 with h1 | h2
      · have := List.mem_takeWhile_imp h1
        rw [this] at hw; cases hw
      · rw [hnil] at h2; cases h2
    · have h2 : (cs.takeWhile isWsChar ++ cs.dropWhile isWsChar).getLast? = some c := by
        rw [hsplit]; exact h
      rw [List.getLast?_append] at h2
      cases hg : (cs.dropWhile isWsChar).getLast? with
      | none => exact absurd (List.getLast?_eq_none_iff.mp hg) hnil
      | some x => rw [hg] at h2; simpa using h2
  have hrev : (cs.dropWhile isWsChar).reverse.head? = some c := by
    rw [List.head?_reverse]; exact hd
  cases hr : (cs.dropWhile isWsChar).reverse with
  | nil => rw [hr] at hrev; cases hrev
  | cons x y =>
    rw [hr] at hrev
    have hx : x = c := by simpa using hrev
    subst hx
    show (((cs.dropWhile isWsChar).reverse.dropWhile isWsChar).reverse).getLast? = some x
    rw [hr, List.dropWhile_cons, hw]
    simp [List.getLast?_reverse]

theorem mem_createGo (sentences : List (List Char)) (tpw : ℚ) :
    ∀ (k : ℕ) (acc : List Clip) (clip : Clip), clip ∈ createGo sentences tpw k acc →
      clip ∈ acc ∨ ∃ k', 1 ≤ k' ∧ clip ∈ clipsForGroupSize sentences tpw k' := by
  intro k
  induction k with
  | zero =>
    intro acc clip h
    rw [createGo] at h
    exact Or.inl h
  | succ n ih =>
    intro acc clip h
    rw [createGo] at h
    by_cases hl : 150 ≤ (acc ++ clipsForGroupSize sentences tpw (n + 1)).length
    · rw [if_pos hl] at h
      rcases List.mem_append.mp h with h1 | h2
      · exact Or.inl h1
      · exact Or.inr ⟨n + 1, by omega, h2⟩
    · rw [if_neg hl] at h
      rcases ih (acc ++ clipsForGroupSize sentences tpw (n + 1)) clip h with h1 | h2
      · rcases List.mem_append.mp h1 with ha | hb
        · exact Or.inl ha
        · exact Or.inr ⟨n + 1, by omega, hb⟩
      · exact Or.inr h2

theorem mem_createPotentialClips (sentences : List (List Char)) (tpw : ℚ)
    (ct : ContentType) (clip : Clip) (h : clip ∈ createPotentialClips sentences tpw ct) :
    ∃ k i, 1 ≤ k ∧ i < sentences.length + 1 - k ∧ mkTextClip sentences tpw i k = some clip := by
  rcases mem_createGo sentences tpw _ [] clip h with h1 | ⟨k, hk, hmem⟩
  · cases h1
  · have h2 : ∃ i < sentences.length + 1 - k, mkTextClip sentences tpw i k = some clip := by
      simpa [clipsForGroupSize, List.mem_filterMap, List.mem_range] using hmem
    rcases h2 with ⟨i, hi, heq⟩
    exact ⟨k, i, hk, hi, heq⟩

theorem mkTextClip_spec (s : List (List Char)) (tpw : ℚ) (i k : ℕ) (clip : Clip)
    (h : mkTextClip s tpw i k = some clip) :
    clip.text = joinSpace ((s.drop i).take k) ∧
    clip.duration = clip.endTime - clip.start ∧
    max 5 (CLIP_MIN_DURATION * 0.7) ≤ clip.duration ∧
    clip.qualityScore = specTextScore clip.duration clip.text ∧
    clip.endsWithCompleteSentence = endsCompleteB clip.text := by
  simp only [mkTextClip] at h
  split at h
  · cases h
  · split at h
    · rename_i hcond
      rw [Option.some_inj] at h
      subst h
      exact ⟨rfl, rfl, hcond.1, rfl, rfl⟩
    · cases h

theorem isSentPunct_chars (c : Char) (h : isSentPunct c = true) :
    c = '.' ∨ c = '!' ∨ c = '?' :=
  or_assoc.mp (by simpa [isSentPunct, decide_eq_true_eq] using h)

theorem isSentPunct_not_ws (c : Char) (h : isSentPunct c = true) : isWsChar c = false := by
  rcases isSentPunct_chars c h with h1 | h1 | h1 <;> subst h1 <;> decide

/-- C1: every candidate emitted by the text-path window generator
(createPotentialClips over the sentence split of the transcript text) with
endsWithCompleteSentence = true has a trimmed text whose last character is
one of the sentence terminators '.', '!', '?'. -/
theorem C1_text_ends_at_sentence_terminator (text : List Char) (tpw : ℚ)
    (ct : ContentType) (clip : Clip)
    (hm : clip ∈ createPotentialClips (sentSplit text) tpw ct)
    (_hflag : clip.endsWithCompleteSentence = true) :
    ∃ c, (jsTrim clip.text).getLast? = some c ∧ (c = '.' ∨ c = '!' ∨ c = '?') := by
  rcases mem_createPotentialClips _ _ _ _ hm with ⟨k, i, hk, hi, heq⟩
  rcases mkTextClip_spec _ _ _ _ _ heq with ⟨htext, -, -, -, -⟩
  have hlen : ((sentSplit text).drop i).take k ≠ [] := by
    have h1 : (((sentSplit text).drop i).take k).length =
        min k ((sentSplit text).length - i) := by
      rw [List.length_take, List.length_drop]
    intro hnil
    rw [hnil] at h1
    simp only [List.length_nil] at h1
    omega
  cases hg : (((sentSplit text).drop i).take k).getLast? with
  | none => exact absurd (List.getLast?_eq_none_iff.mp hg) hlen
  | some sLast =>
    have hsm : sLast ∈ sentSplit text :=
      List.mem_of_mem_drop (List.mem_of_mem_take (List.mem_of_mem_getLast? hg))
    rcases sentSplitAux_ends text sLast hsm with ⟨c, hc, hcp⟩
    have hjoin : clip.text.getLast? = some c := by
      rw [htext]; exact joinSpace_getLast? _ sLast c hg hc
    exact ⟨c, jsTrim_getLast? _ _ hjoin (isSentPunct_not_ws c hcp),
      isSentPunct_chars c hcp⟩

/-- Concrete clip used to witness C1: the top candidate generated from the
specification scenario transcript. -/
def c1WitnessClip : Clip :=
  (createPotentialClips
    (sentSplit (strL "Learning is key. This is the best strategy you will ever find. It changes everything."))
    0.4 ContentType.educational).headI

theorem C1_witness :
    ∃ c, (jsTrim c1WitnessClip.text).getLast? = some c ∧
      (c = '.' ∨ c = '!' ∨ c = '?') :=
  C1_text_ends_at_sentence_terminator
    (strL "Learning is key. This is the best strategy you will ever find. It changes everything.")
    0.4 ContentType.educational c1WitnessClip (by with_unfolding_all decide)
    (by with_unfolding_all decide)

/-- C8 (amended): every candidate emitted by createPotentialClips carries
qualityScore = (1 - |duration - IDEAL|/IDEAL) + impactBonus + 0.5-completion
bonus over its duration and text; the equality carries over to the validated
candidate exactly when timestamp validation leaves its duration unchanged. -/
theorem C8_text_score_formula (sentences : List (List Char)) (tpw : ℚ)
    (ct : ContentType) (clip : Clip)
    (hm : clip ∈ createPotentialClips sentences tpw ct) :
    clip.qualityScore = specTextScore clip.duration clip.text ∧
    ∀ maxTime : ℚ, (validateClip maxTime clip).duration = clip.duration →
      (validateClip maxTime clip).qualityScore =
        specTextScore (validateClip maxTime clip).duration (validateClip maxTime clip).text := by
  rcases mem_createPotentialClips _ _ _ _ hm with ⟨k, i, hk, hi, heq⟩
  rcases mkTextClip_spec _ _ _ _ _ heq with ⟨-, -, -, hscore, -⟩
  refine ⟨hscore, ?_⟩
  intro maxTime hdur
  have h1 : (validateClip maxTime clip).qualityScore = clip.qualityScore := rfl
  have h2 : (validateClip maxTime clip).text = clip.text := rfl
  rw [h1, h2, hdur, hscore]

/-- Concrete clip used to witness the amended C8. -/
def c8WitnessClip : Clip :=
  (createPotentialClips (sentSplit (strL "Hi. one two three four five six."))
    0.7 ContentType.generic).headI

theorem C8_witness :
    c8WitnessClip.qualityScore = specTextScore c8WitnessClip.duration c8WitnessClip.text ∧
    ∀ maxTime : ℚ, (validateClip maxTime c8WitnessClip).duration = c8WitnessClip.duration →
      (validateClip maxTime c8WitnessClip).qualityScore =
        specTextScore (validateClip maxTime c8WitnessClip).duration
          (validateClip maxTime c8WitnessClip).text :=
  C8_text_score_formula (sentSplit (strL "Hi. one two three four five six."))
    0.7 ContentType.generic c8WitnessClip (by with_unfolding_all decide)

/-- C8 counterexample: in the final validated output of the text path, a
candidate whose timestamps were clamped to a short audio duration keeps the
qualityScore computed from its pre-validation duration, so the claimed
formula fails over the candidate's (final) duration and text. -/
theorem C8_counterexample :
    ∃ clip ∈ textPathValidatedClips (strL "Hi. one two three four five six.") (some (49/10)),
      clip.qualityScore ≠ specTextScore clip.duration clip.text := by
  with_unfolding_all decide

/-- C9: detectContentType is total over the four categories and decides them
by first-match-wins priority: music when the music keywords match or more
than 3 sliding 3..8-gram phrases repeat, then educational, then interview,
then generic. -/
theorem C9_detectContentType_cases (text : List Char) :
    (detectContentType text = ContentType.music ∨
     detectContentType text = ContentType.educational ∨
     detectContentType text = ContentType.interview ∨
     detectContentType text = ContentType.generic) ∧
    (detectContentType text = ContentType.music ↔
      (testAltCI musicKeywordsList text = true ∨ 3 < (findRepeatedPhrases text).length)) ∧
    (detectContentType text = ContentType.educational ↔
      (¬(testAltCI musicKeywordsList text = true ∨ 3 < (findRepeatedPhrases text).length) ∧
        testAltCI eduKeywordsList text = true)) ∧
    (detectContentType text = ContentType.interview ↔
      (¬(testAltCI musicKeywordsList text = true ∨ 3 < (findRepeatedPhrases text).length) ∧
        testAltCI eduKeywordsList text = false ∧
        testAltCI interviewKeywordsList text = true)) ∧
    (detectContentType text = ContentType.generic ↔
      (¬(testAltCI musicKeywordsList text = true ∨ 3 < (findRepeatedPhrases text).length) ∧
        testAltCI eduKeywordsList text = false ∧
        testAltCI interviewKeywordsList text = false)) := by
  unfold detectContentType
  split_ifs with h1 h2 h3
  · refine ⟨Or.inl rfl, ⟨fun _ => h1, fun _ => rfl⟩, ?_, ?_, ?_⟩ <;>
      exact ⟨fun hx => by simp at hx, fun hx => absurd h1 hx.1⟩
  · refine ⟨Or.inr (Or.inl rfl), ?_, ⟨fun _ => ⟨h1, h2⟩, fun _ => rfl⟩, ?_, ?_⟩
    · exact ⟨fun hx => by simp at hx, fun hx => absurd hx h1⟩
    · exact ⟨fun hx => by simp at hx, fun hx => absurd h2 (by simp [hx.2.1])⟩
    · exact ⟨fun hx => by simp at hx, fun hx => absurd h2 (by simp [hx.2.1])⟩
  · have h2a : testAltCI eduKeywordsList text = false := by simpa using h2
    refine ⟨Or.inr (Or.inr (Or.inl rfl)), ?_, ?_,
      ⟨fun _ => ⟨h1, h2a, h3⟩, fun _ => rfl⟩, ?_⟩
    · exact ⟨fun hx => by simp at hx, fun hx => absurd hx h1⟩
    · exact ⟨fun hx => by simp at hx, fun hx => absurd hx.2 (by simp [h2a])⟩
    · exact ⟨fun hx => by simp at hx, fun hx => absurd h3 (by simp [hx.2.2])⟩
  · have h2a : testAltCI eduKeywordsList text = false := by simpa using h2
    have h3a : testAltCI interviewKeywordsList text = false := by simpa using h3
    refine ⟨Or.inr (Or.inr (Or.inr rfl)), ?_, ?_, ?_,
      ⟨fun _ => ⟨h1, h2a, h3a⟩, fun _ => rfl⟩⟩
    · exact ⟨fun hx => by simp at hx, fun hx => absurd hx h1⟩
    · exact ⟨fun hx => by simp at hx, fun hx => absurd hx.2 (by simp [h2a])⟩
    · exact ⟨fun hx => by simp at hx, fun hx => absurd hx.2.2 (by simp [h3a])⟩

/-- The duration floor restored by timestamp validation whenever the bound
maxTime is itself at least the relaxed floor. -/
theorem validateClip_duration_floor (maxTime : ℚ) (clip : Clip)
    (h : CLIP_MIN_DURATION * 0.7 ≤ maxTime) :
    CLIP_MIN_DURATION * 0.7 ≤ (validateClip maxTime clip).duration := by
  show CLIP_MIN_DURATION * 0.7 ≤
    min maxTime (max (max 0 (min clip.start (maxTime - CLIP_MIN_DURATION * 0.7)) +
      CLIP_MIN_DURATION * 0.7) clip.endTime) -
      max 0 (min clip.start (maxTime - CLIP_MIN_DURATION * 0.7))
  have h1 : max 0 (min clip.start (maxTime - CLIP_MIN_DURATION * 0.7)) ≤
      maxTime - CLIP_MIN_DURATION * 0.7 := by
    apply max_le
    · linarith
    · exact min_le_right _ _
  have h3 : max 0 (min clip.start (maxTime - CLIP_MIN_DURATION * 0.7)) +
      CLIP_MIN_DURATION * 0.7 ≤
      min maxTime (max (max 0 (min clip.start (maxTime - CLIP_MIN_DURATION * 0.7)) +
        CLIP_MIN_DURATION * 0.7) clip.endTime) :=
    le_min (by linarith) (le_max_left _ _)
  linarith

/-- validateClip keeps duration = endTime - start by construction. -/
theorem validateClip_duration_eq (maxTime : ℚ) (clip : Clip) :
    (validateClip maxTime clip).duration =
      (validateClip maxTime clip).endTime - (validateClip maxTime clip).start := rfl

/-- C2 counterexample: with an audio duration of 4.9 s the text path emits a
validated candidate of duration 4.9 < 5, violating the claimed universal
5-second floor. -/
theorem C2_counterexample :
    ∃ clip ∈ textPathValidatedClips (strL "Hi. one two three four five six.") (some (49/10)),
      clip.duration < 5 := by
  with_unfolding_all decide

/-- Significant-overlap test of analyzeClipsForQualityAndOverlap: the clips
overlap by strictly more than half of the shorter duration. -/
def significantOverlap (a b : Clip) : Bool :=
  if min a.endTime b.endTime ≤ max a.start b.start then false
  else (0.5 : ℚ) <
    (min a.endTime b.endTime - max a.start b.start) /
      min (a.endTime - a.start) (b.endTime - b.start)

theorem significantOverlap_symm (a b : Clip) :
    significantOverlap a b = significantOverlap b a := by
  unfold significantOverlap
  rw [min_comm a.endTime b.endTime, max_comm a.start b.start,
      min_comm (a.endTime - a.start) (b.endTime - b.start)]

/-- The overlap-resolution comparator of analyzeClipsForQualityAndOverlap:
quality scores when both truthy, then presence of a selection reason, then
original position. -/
def clipSortLe (clips : List Clip) (a b : Clip) : Bool :=
  if a.qualityScore ≠ 0 ∧ b.qualityScore ≠ 0 then b.qualityScore ≤ a.qualityScore
  else if a.reason ≠ [] ∧ b.reason = [] then true
  else if a.reason = [] ∧ b.reason ≠ [] then false
  else clips.findIdx (fun x => x == a) ≤ clips.findIdx (fun x => x == b)

/-- The stable sort pass of analyzeClipsForQualityAndOverlap. -/
def sortedForOverlap (clips : List Clip) : List Clip :=
  List.mergeSort clips (clipSortLe clips)

/-- A clip in the resolver state, tagged with the quality score of the clip
it replaced when it entered through the replacement branch. -/
structure TClip where
  clip : Clip
  replacedScore : Option ℚ
deriving DecidableEq, Repr

/-- JS Array.prototype.splice(index, 1, clip) at the index found for the
first element equal to the target. -/
def replaceFirst (p : TClip → Bool) (nw : TClip) : List TClip → List TClip
  | [] => []
  | x :: xs => if p x then nw :: xs else x :: replaceFirst p nw xs

/-- One iteration of the conflict-resolution loop of
analyzeClipsForQualityAndOverlap over the sorted clips. -/
def resolveStep (fin : List TClip) (clip : Clip) : List TClip :=
  if fin.any (fun e => significantOverlap clip e.clip) then
    match fin.find? (fun e => significantOverlap clip e.clip) with
    | some e =>
      if clip.qualityScore ≠ 0 ∧ e.clip.qualityScore ≠ 0 ∧
          e.clip.qualityScore * 1.2 < clip.qualityScore then
        replaceFirst (fun x => x == e) ⟨clip, some e.clip.qualityScore⟩ fin
      else fin
    | none => fin
  else fin ++ [⟨clip, none⟩]

/-- analyzeClipsForQualityAndOverlap from clipper.js: sort, then greedily
keep clips, replacing the first significantly overlapping kept clip when the
newcomer scores more than 20 percent higher. -/
def analyzeClipsForQualityAndOverlap (clips : List Clip) : List Clip :=
  ((sortedForOverlap clips).foldl resolveStep []).map TClip.clip

/-- The pairwise exemption relation: an overlapping pair is allowed only
when one of the two entered through the replacement branch. -/
def overlapExempt (x y : TClip) : Prop :=
  significantOverlap x.clip y.clip = true →
    x.replacedScore ≠ none ∨ y.replacedScore ≠ none

/-- A tagged clip respects the 20-percent replacement margin. -/
def tagGood (x : TClip) : Prop :=
  ∀ q, x.replacedScore = some q → q * 1.2 < x.clip.qualityScore

theorem mem_replaceFirst (p : TClip → Bool) (nw : TClip) :
    ∀ (l : List TClip) (y : TClip), y ∈ replaceFirst p nw l → y = nw ∨ y ∈ l := by
  intro l
  induction l with
  | nil => intro y hy; cases hy
  | cons x xs ih =>
    intro y hy
    unfold replaceFirst at hy
    by_cases hp : p x = true
    · rw [if_pos hp] at hy
      rcases List.mem_cons.mp hy with h | h
      · exact Or.inl h
      · exact Or.inr (List.mem_cons_of_mem _ h)
    · rw [if_neg hp] at hy
      rcases List.mem_cons.mp hy with h | h
      · exact Or.inr (h ▸ List.mem_cons_self _ _)
      · rcases ih y h with h2 | h2
        · exact Or.inl h2
        · exact Or.inr (List.mem_cons_of_mem _ h2)

theorem pairwise_replaceFirst (p : TClip → Bool) (nw : TClip)
    (hnw : ∀ z, overlapExempt z nw ∧ overlapExempt nw z) :
    ∀ (l : List TClip), l.Pairwise overlapExempt →
      (replaceFirst p nw l).Pairwise overlapExempt := by
  intro l
  induction l with
  | nil => intro h; exact h
  | cons x xs ih =>
    intro h
    rcases List.pairwise_cons.mp h with ⟨hx, hxs⟩
    unfold replaceFirst
    by_cases hp : p x = true
    · rw [if_pos hp]
      exact List.pairwise_cons.mpr ⟨fun y _ => (hnw y).2, hxs⟩
    · rw [if_neg hp]
      refine List.pairwise_cons.mpr ⟨?_, ih hxs⟩
      intro y hy
      rcases mem_replaceFirst p nw xs y hy with h2 | h2
      · exact h2 ▸ (hnw x).1
      · exact hx y h2

theorem resolveStep_invariant (fin : List TClip) (clip : Clip)
    (h1 : fin.Pairwise overlapExempt) (h2 : ∀ x ∈ fin, tagGood x) :
    (resolveStep fin clip).Pairwise overlapExempt ∧
      ∀ x ∈ resolveStep fin clip, tagGood x := by
  unfold resolveStep
  by_cases hany : fin.any (fun e => significantOverlap clip e.clip) = true
  · rw [if_pos hany]
    cases hf : fin.find? (fun e => significantOverlap clip e.clip) with
    | none =>
      exact ⟨h1, h2⟩
    | some e =>
      dsimp only
      by_cases hq : clip.qualityScore ≠ 0 ∧ e.clip.qualityScore ≠ 0 ∧
          e.clip.qualityScore * 1.2 < clip.qualityScore
      · rw [if_pos hq]
        constructor
        · refine pairwise_replaceFirst _ _ ?_ fin h1
          intro z
          constructor
          · intro _; exact Or.inr (by simp)
          · intro _; exact Or.inl (by simp)
        · intro x hx
          rcases mem_replaceFirst _ _ fin x hx with h3 | h3
          · subst h3
            intro q hq2
            rw [Option.some_inj] at hq2
            subst hq2
            exact hq.2.2
          · exact h2 x h3
      · rw [if_neg hq]
        exact ⟨h1, h2⟩
  · rw [if_neg hany]
    constructor
    · rw [List.pairwise_append]
      refine ⟨h1, List.pairwise_singleton _ _, ?_⟩
      intro x hx y hy
      rcases List.mem_singleton.mp hy with rfl
      intro hov
      exfalso
      have : significantOverlap clip x.clip = true := by
        rw [significantOverlap_symm]; exact hov
      exact hany (List.any_eq_true.mpr ⟨x, hx, this⟩)
    · intro x hx
      rcases List.mem_append.mp hx with h3 | h3
      · exact h2 x h3
      · rcases List.mem_singleton.mp h3 with rfl
        intro q hq2
        cases hq2

theorem resolveFold_invariant (l : List Clip) :
    ∀ (fin : List TClip), fin.Pairwise overlapExempt → (∀ x ∈ fin, tagGood x) →
      (l.foldl resolveStep fin).Pairwise overlapExempt ∧
        ∀ x ∈ l.foldl resolveStep fin, tagGood x := by
  induction l with
  | nil => intro fin h1 h2; exact ⟨h1, h2⟩
  | cons c cs ih =>
    intro fin h1 h2
    rcases resolveStep_invariant fin c h1 h2 with ⟨h3, h4⟩
    exact ih (resolveStep fin c) h3 h4

/-- C3: in the OverlapResolver output, any two kept clips that overlap by
more than 50 percent of the shorter duration include one that entered
through the replacement branch, whose quality score exceeds the replaced
clip score by more than 20 percent; the plain output is the projection of
the tagged resolver state. -/
theorem C3_overlap_invariant (clips : List Clip) :
    ((sortedForOverlap clips).foldl resolveStep []).Pairwise (fun x y =>
      significantOverlap x.clip y.clip = true →
        (∃ q, x.replacedScore = some q ∧ q * 1.2 < x.clip.qualityScore) ∨
        (∃ q, y.replacedScore = some q ∧ q * 1.2 < y.clip.qualityScore)) ∧
    analyzeClipsForQualityAndOverlap clips =
      ((sortedForOverlap clips).foldl resolveStep []).map TClip.clip := by
  rcases resolveFold_invariant (sortedForOverlap clips) [] (by simp) (by simp)
    with ⟨h1, h2⟩
  refine ⟨?_, rfl⟩
  refine List.Pairwise.imp_of_mem ?_ h1
  intro x y hx hy hxy hov
  rcases hxy hov with h3 | h3
  · cases hs : x.replacedScore with
    | none => exact absurd hs h3
    | some q => exact Or.inl ⟨q, rfl, h2 x hx q hs⟩
  · cases hs : y.replacedScore with
    | none => exact absurd hs h3
    | some q => exact Or.inr ⟨q, rfl, h2 y hy q hs⟩

/-- The apostrophe character (avoids quoting issues in string literals). -/
def apo : Char := '\x27'

/-- Splices an apostrophe between two literal fragments. -/
def strApo (a b : String) : List Char := strL a ++ apo :: strL b

/-- Narrative-opening alternation of fallbackClipSelection (anchored). -/
def narrativeStartList : List (List Char) :=
  [strL "when", strL "once", strL "there was", strL "i", strL "we", strL "they",
   strL "if you", strL "eventually", strL "at first", strL "finally", strL "ultimately"]

/-- Emotional-impact alternation of fallbackClipSelection. -/
def emotionalAltList : List (List Char) :=
  [strL "amazing", strL "incredible", strL "surprising", strL "shocking",
   strL "mind-blowing", strL "never", strL "always", strL "changed", strL "stunned",
   strApo "couldn" "t believe", strL "realized", strL "discovered",
   strL "astonishing", strL "powerful", strL "transformative", strL "fascinating"]

/-- Educational-value alternation of fallbackClipSelection. -/
def eduAltList : List (List Char) :=
  [strL "learn", strL "understand", strL "know", strL "explain", strL "how to",
   strL "works", strL "actually", strL "truth", strL "fact", strL "study",
   strL "research", strL "found", strApo "most people don" "t", strL "realize",
   strL "secret", strL "technique", strL "method", strL "steps"]

/-- Curiosity-hook prefix alternation of fallbackClipSelection (anchored). -/
def curiosityList : List (List Char) :=
  [strL "what if", strApo "here" "s why", strL "the truth about",
   strApo "most people don" "t know", strL "the secret to", strL "this is how",
   strL "i never knew", strApo "you won" "t believe", strL "the real reason"]

/-- Contradiction/twist alternation of fallbackClipSelection. -/
def contradictionList : List (List Char) :=
  [strL "but", strL "however", strL "surprisingly", strL "instead", strL "contrary",
   strL "opposite", strL "unlike", strL "unexpected", strL "twist", strL "plot twist",
   strL "actually", strL "reality", strL "truth"]

/-- The per-clip scoring map of fallbackClipSelection: viral score, blended
final score, duration category and the viral-elements reason. -/
def fallbackScored (clip : Clip) : Clip :=
  let text := lowerL clip.text
  let v1 : ℚ :=
    if testAltPrefixCI narrativeStartList text = true ∧ 50 < text.length then 0.3 else 0
  let v2 : ℚ := min 0.4 ((countAltMatches emotionalAltList text : ℚ) * 0.1)
  let v3 : ℚ := min 0.4 ((countAltMatches eduAltList text : ℚ) * 0.1)
  let v4 : ℚ := if testAltPrefixCI curiosityList text = true then 0.3 else 0
  let v5 : ℚ := if testAltCI contradictionList text = true then 0.2 else 0
  let wc := (jsSplitWs text).length
  let v6 : ℚ := if 15 < wc ∧ wc < 50 then 0.2 else 0
  let viral := v1 + v2 + v3 + v4 + v5 + v6
  let final := if clip.qualityScore ≠ 0 then clip.qualityScore * 0.4 + viral * 0.6 else viral
  let cat : DurCat :=
    if clip.duration < 10 then DurCat.very_short
    else if clip.duration < 20 then DurCat.short
    else if clip.duration < 30 then DurCat.medium
    else DurCat.long
  { clip with
    viralScore := viral
    finalScore := final
    durationCategory := some cat
    reason := strL "Selected for likely viral elements: " ++
      (if (0.5 : ℚ) < viral then strL "High viral potential"
       else if (0.3 : ℚ) < viral then strL "Moderate viral potential"
       else strL "Potential interest elements") }

/-- The clips of one duration category sorted by final score descending. -/
def catFilterSorted (scored : List Clip) (cat : DurCat) : List Clip :=
  List.mergeSort (scored.filter (fun c => c.durationCategory == some cat))
    (fun a b => b.finalScore ≤ a.finalScore)

/-- The top clip of each non-empty duration category, in category order. -/
def fallbackInitialPicks (scored : List Clip) : List Clip :=
  [DurCat.very_short, DurCat.short, DurCat.medium, DurCat.long].filterMap
    (fun cat => (catFilterSorted scored cat).head?)

/-- The shared-duration-over-40-percent overlap test of the fallback top-up. -/
def overlapsMoreThan40 (a b : Clip) : Bool :=
  min (a.endTime - a.start) (b.endTime - b.start) * 0.4 <
    max 0 (min a.endTime b.endTime - max a.start b.start)

/-- The top-up while loop of fallbackClipSelection: add the next
highest-scoring remaining clip unless it overlaps a selected one by more
than 40 percent of the shorter clip. -/
def fallbackTopUp : List Clip → List Clip → List Clip
  | selected, [] => selected
  | selected, next :: rest =>
    if 5 ≤ selected.length then selected
    else if selected.any (fun ex => overlapsMoreThan40 next ex) then
      fallbackTopUp selected rest
    else fallbackTopUp (selected ++ [next]) rest

/-- fallbackClipSelection from clipper.js. -/
def fallbackClipSelection (clips : List Clip) : List Clip :=
  if clips.isEmpty then [] else
  let scored := clips.map fallbackScored
  let selected := fallbackInitialPicks scored
  if 5 < selected.length then
    (List.mergeSort selected (fun a b => b.finalScore ≤ a.finalScore)).take 5
  else if selected.length < 5 then
    let remaining := List.mergeSort (scored.filter (fun c => !(selected.contains c)))
      (fun a b => b.finalScore ≤ a.finalScore)
    fallbackTopUp selected remaining
  else selected

/-- The chain condition satisfied by the clips the top-up loop added: each
one avoids a more-than-40-percent overlap with everything selected before it. -/
def topUpChainOK : List Clip → List Clip → Prop
  | _, [] => True
  | sel, t :: ts =>
    (∀ s ∈ sel, overlapsMoreThan40 t s = false) ∧ topUpChainOK (sel ++ [t]) ts

instance topUpChainOK_decidable : ∀ sel extra, Decidable (topUpChainOK sel extra)
  | _, [] => isTrue trivial
  | sel, t :: ts =>
    have : Decidable (topUpChainOK (sel ++ [t]) ts) := topUpChainOK_decidable _ ts
    inferInstanceAs (Decidable (_ ∧ _))

theorem fallbackTopUp_decomp :
    ∀ (rem sel : List Clip), ∃ extra,
      fallbackTopUp sel rem = sel ++ extra ∧ topUpChainOK sel extra := by
  intro rem
  induction rem with
  | nil => intro sel; exact ⟨[], by simp [fallbackTopUp], trivial⟩
  | cons next rest ih =>
    intro sel
    unfold fallbackTopUp
    by_cases h5 : 5 ≤ sel.length
    · rw [if_pos h5]
      exact ⟨[], by simp, trivial⟩
    · rw [if_neg h5]
      by_cases hov : sel.any (fun ex => overlapsMoreThan40 next ex) = true
      · rw [if_pos hov]
        exact ih sel
      · rw [if_neg hov]
        rcases ih (sel ++ [next]) with ⟨extra, heq, hchain⟩
        refine ⟨next :: extra, by simpa using heq, ?_, hchain⟩
        intro s hs
        by_contra hcon
        have : overlapsMoreThan40 next s = true := by
          cases ho : overlapsMoreThan40 next s with
          | false => exact absurd ho hcon
          | true => rfl
        exact hov (List.any_eq_true.mpr ⟨s, hs, this⟩)

theorem fallbackTopUp_length :
    ∀ (rem sel : List Clip), sel.length ≤ 5 → (fallbackTopUp sel rem).length ≤ 5 := by
  intro rem
  induction rem with
  | nil => intro sel h; simpa [fallbackTopUp] using h
  | cons next rest ih =>
    intro sel h
    unfold fallbackTopUp
    by_cases h5 : 5 ≤ sel.length
    · rw [if_pos h5]; exact h
    · rw [if_neg h5]
      by_cases hov : sel.any (fun ex => overlapsMoreThan40 next ex) = true
      · rw [if_pos hov]; exact ih sel h
      · rw [if_neg hov]
        refine ih (sel ++ [next]) ?_
        have : sel.length < 5 := by omega
        simp only [List.length_append, List.length_singleton]
        omega

theorem fallbackInitialPicks_length (scored : List Clip) :
    (fallbackInitialPicks scored).length ≤ 4 := by
  have := List.length_filterMap_le
    (fun cat => (catFilterSorted scored cat).head?)
    [DurCat.very_short, DurCat.short, DurCat.medium, DurCat.long]
  simpa [fallbackInitialPicks] using this

theorem initialPicks_cover (scored : List Clip) (cat : DurCat)
    (hc : ∃ c ∈ scored, c.durationCategory = some cat) :
    ∃ p ∈ fallbackInitialPicks scored, p.durationCategory = some cat := by
  rcases hc with ⟨c, hcm, hcat⟩
  have hmem : c ∈ catFilterSorted scored cat := by
    rw [catFilterSorted, List.mem_mergeSort]
    exact List.mem_filter.mpr ⟨hcm, by simp [hcat]⟩
  cases hcs : catFilterSorted scored cat with
  | nil => rw [hcs] at hmem; cases hmem
  | cons p t =>
    refine ⟨p, ?_, ?_⟩
    · refine List.mem_filterMap.mpr ⟨cat, ?_, ?_⟩
      · cases cat <;> simp
      · rw [hcs]; rfl
    · have hpm : p ∈ catFilterSorted scored cat := by
        rw [hcs]; exact List.mem_cons_self _ _
      rw [catFilterSorted, List.mem_mergeSort] at hpm
      have := (List.mem_filter.mp hpm).2
      simpa using this

/-- The specification scenario pool for the FallbackRanker: one candidate
per duration bucket (8 s, 15 s, 25 s, 40 s) with distinct scores. -/
def c6ScenarioClips : List Clip :=
  [{ start := 0, endTime := 8, duration := 8, qualityScore := 1 },
   { start := 100, endTime := 115, duration := 15, qualityScore := 2 },
   { start := 200, endTime := 225, duration := 25, qualityScore := 3 },
   { start := 300, endTime := 340, duration := 40, qualityScore := 4 }]

/-- C6: for a non-empty pool, fallbackClipSelection returns at most 5
selections, covers every non-empty duration category (<10, 10-20, 20-30,
at least 30) with at least one clip, and every top-up addition avoids a
more-than-40-percent overlap with everything selected before it; on the
scenario pool of durations 8/15/25/40 with distinct scores, the pre-top-up
picks hold exactly one clip per bucket in bucket order. -/
theorem C6_fallback_selection (clips : List Clip) (h : clips ≠ []) :
    (fallbackClipSelection clips).length ≤ 5 ∧
    (∀ cat : DurCat, (∃ c ∈ clips.map fallbackScored, c.durationCategory = some cat) →
      ∃ c ∈ fallbackClipSelection clips, c.durationCategory = some cat) ∧
    (∃ extra, fallbackClipSelection clips =
        fallbackInitialPicks (clips.map fallbackScored) ++ extra ∧
      topUpChainOK (fallbackInitialPicks (clips.map fallbackScored)) extra) ∧
    (fallbackInitialPicks (c6ScenarioClips.map fallbackScored)).map Clip.durationCategory =
      [some DurCat.very_short, some DurCat.short, some DurCat.medium, some DurCat.long] := by
  have hne : clips.isEmpty = false := by
    cases clips with
    | nil => exact absurd rfl h
    | cons a t => rfl
  have hp4 : (fallbackInitialPicks (clips.map fallbackScored)).length ≤ 4 :=
    fallbackInitialPicks_length (clips.map fallbackScored)
  have hn5 : ¬ 5 < (fallbackInitialPicks (clips.map fallbackScored)).length := by omega
  have hout : fallbackClipSelection clips =
      if (fallbackInitialPicks (clips.map fallbackScored)).length < 5 then
        fallbackTopUp (fallbackInitialPicks (clips.map fallbackScored))
          (List.mergeSort ((clips.map fallbackScored).filter
              (fun c => !((fallbackInitialPicks (clips.map fallbackScored)).contains c)))
            (fun a b => b.finalScore ≤ a.finalScore))
      else fallbackInitialPicks (clips.map fallbackScored) := by
    rw [fallbackClipSelection]
    simp only [hne, Bool.false_eq_true, if_false]
    rw [if_neg hn5]
  have hdecomp : ∃ extra, fallbackClipSelection clips =
      fallbackInitialPicks (clips.map fallbackScored) ++ extra ∧
      topUpChainOK (fallbackInitialPicks (clips.map fallbackScored)) extra := by
    rw [hout]
    by_cases h5 : (fallbackInitialPicks (clips.map fallbackScored)).length < 5
    · rw [if_pos h5]
      exact fallbackTopUp_decomp _ _
    · rw [if_neg h5]
      exact ⟨[], by simp, trivial⟩
  refine ⟨?_, ?_, hdecomp, by with_unfolding_all decide⟩
  · rw [hout]
    by_cases h5 : (fallbackInitialPicks (clips.map fallbackScored)).length < 5
    · rw [if_pos h5]
      exact fallbackTopUp_length _ _ (by omega)
    · rw [if_neg h5]
      omega
  · intro cat hcat
    rcases initialPicks_cover (clips.map fallbackScored) cat hcat with ⟨p, hp, hpcat⟩
    rcases hdecomp with ⟨extra, heq, -⟩
    exact ⟨p, by rw [heq]; exact List.mem_append_left _ hp, hpcat⟩

theorem C6_witness :
    (fallbackClipSelection c6ScenarioClips).length ≤ 5 ∧
    (∀ cat : DurCat,
        (∃ c ∈ c6ScenarioClips.map fallbackScored, c.durationCategory = some cat) →
      ∃ c ∈ fallbackClipSelection c6ScenarioClips, c.durationCategory = some cat) ∧
    (∃ extra, fallbackClipSelection c6ScenarioClips =
        fallbackInitialPicks (c6ScenarioClips.map fallbackScored) ++ extra ∧
      topUpChainOK (fallbackInitialPicks (c6ScenarioClips.map fallbackScored)) extra) ∧
    (fallbackInitialPicks (c6ScenarioClips.map fallbackScored)).map Clip.durationCategory =
      [some DurCat.very_short, some DurCat.short, some DurCat.medium, some DurCat.long] :=
  C6_fallback_selection c6ScenarioClips (by with_unfolding_all decide)

/-- A clip-number match extracted from the LLM reply: the matched text (absent
for the contextual strategy), the digit capture, and the reason captured by
the contextual strategy. -/
structure ClipMatch where
  full : Option (List Char)
  digits : List Char
  reason2 : Option (List Char)
deriving DecidableEq, Repr

/-- parseInt on a digit capture. -/
def parseDigits (ds : List Char) : ℕ :=
  ds.foldl (fun acc c => acc * 10 + (c.toNat - 48)) 0

/-- The optional number sign and separator tail of the SELECTED CLIP and
CLIP patterns: (#|NUMBER)? \s* :? \s* (\d+); returns consumed length and
the digit capture, trying the alternatives in JS engine order. -/
def numTail (cs : List Char) : Option (ℕ × List Char) :=
  let w1 := (cs.takeWhile isWsChar).length
  let cs1 := cs.drop w1
  let c1 : ℕ := if cs1.head? = some ':' then 1 else 0
  let cs2 := cs1.drop c1
  let w2 := (cs2.takeWhile isWsChar).length
  let cs3 := cs2.drop w2
  let ds := cs3.takeWhile Char.isDigit
  if ds.isEmpty then none else some (w1 + c1 + w2 + ds.length, ds)

/-- (#|NUMBER)? \s* :? \s* (\d+) with the optional group resolved first. -/
def optNumTail (cs : List Char) : Option (ℕ × List Char) :=
  match (if cs.take 1 = strL "#" then
      (numTail (cs.drop 1)).map (fun p => (1 + p.1, p.2)) else none) with
  | some r => some r
  | none =>
    match (if lowerL (cs.take 6) = strL "number" then
        (numTail (cs.drop 6)).map (fun p => (6 + p.1, p.2)) else none) with
    | some r => some r
    | none => numTail cs

/-- One attempt of the strategy-1 regex SELECTED \s+ CLIP \s+ (#|NUMBER)?
\s* :? \s* (\d+) (case-insensitive) at the head of cs. -/
def s1MatchAt (cs : List Char) : Option (ℕ × List Char) :=
  if lowerL (cs.take 8) = strL "selected" then
    let cs1 := cs.drop 8
    let w1 := (cs1.takeWhile isWsChar).length
    if w1 = 0 then none else
    let cs2 := cs1.drop w1
    if lowerL (cs2.take 4) = strL "clip" then
      let cs3 := cs2.drop 4
      let w2 := (cs3.takeWhile isWsChar).length
      if w2 = 0 then none else
      (optNumTail (cs3.drop w2)).map (fun p => (8 + w1 + 4 + w2 + p.1, p.2))
    else none
  else none

/-- One attempt of the strategy-2 regex CLIP \s+ (#|NUMBER)? \s* :? \s*
(\d+) (case-insensitive) at the head of cs. -/
def s2MatchAt (cs : List Char) : Option (ℕ × List Char) :=
  if lowerL (cs.take 4) = strL "clip" then
    let cs1 := cs.drop 4
    let w1 := (cs1.takeWhile isWsChar).length
    if w1 = 0 then none else
    (optNumTail (cs1.drop w1)).map (fun p => (4 + w1 + p.1, p.2))
  else none

/-- Left-to-right global scan of a regex model: collect non-overlapping
matches, resuming after each match as matchAll does. -/
def scanGen {α : Type} (tryAt : List Char → Option (ℕ × α)) : List Char → List (List Char × α)
  | [] => []
  | c :: cs =>
    match tryAt (c :: cs) with
    | some (len, a) =>
      if len = 0 then scanGen tryAt cs
      else ((c :: cs).take len, a) :: scanGen tryAt ((c :: cs).drop len)
    | none => scanGen tryAt cs
termination_by l => l.length
decreasing_by
  all_goals (simp only [List.length_drop, List.length_cons]; omega)

/-- Strategy-1 matches of the response. -/
def strategy1Matches (response : List Char) : List ClipMatch :=
  (scanGen s1MatchAt response).map (fun p => ⟨some p.1, p.2, none⟩)

/-- Strategy-2 matches of the response. -/
def strategy2Matches (response : List Char) : List ClipMatch :=
  (scanGen s2MatchAt response).map (fun p => ⟨some p.1, p.2, none⟩)

/-- First index (if any) at which a positional matcher succeeds, with its
consumed length. -/
def findFirstMatchPos (tryAt : List Char → Option ℕ) : List Char → Option (ℕ × ℕ)
  | [] => (tryAt []).map (fun n => (0, n))
  | c :: cs =>
    match tryAt (c :: cs) with
    | some n => some (0, n)
    | none => (findFirstMatchPos tryAt cs).map (fun p => (p.1 + 1, p.2))

/-- Head of a labeled section: word1 \s* word2 \s* :? \s* (case-insensitive),
returning the consumed length. -/
def labelHeadAt (w1 w2 : List Char) (cs : List Char) : Option ℕ :=
  if lowerL (cs.take w1.length) = w1 then
    let cs1 := cs.drop w1.length
    let a1 := (cs1.takeWhile isWsChar).length
    let cs2 := cs1.drop a1
    if lowerL (cs2.take w2.length) = w2 then
      let cs3 := cs2.drop w2.length
      let a2 := (cs3.takeWhile isWsChar).length
      let cs4 := cs3.drop a2
      let c1 : ℕ := if cs4.head? = some ':' then 1 else 0
      let cs5 := cs4.drop c1
      let a3 := (cs5.takeWhile isWsChar).length
      some (w1.length + a1 + w2.length + a2 + c1 + a3)
    else none
  else none

/-- Terminator test of the bounded look-ahead of a labeled section: one of
the given literal terminators (case-insensitive), or a blank line of
whitespace to the end, or the end of the text. -/
def sectionTermAt (terms : List (List Char)) (r : List Char) : Bool :=
  terms.any (fun t => lowerL (r.take t.length) == t) ||
  (decide (r.take 2 = strL "\n\n") && (r.drop 2).all isWsChar) ||
  decide (r = [])

/-- First index at which a predicate on the remaining suffix holds. -/
def firstIdxFrom (pred : List Char → Bool) : List Char → Option ℕ
  | [] => if pred [] then some 0 else none
  | c :: cs => if pred (c :: cs) then some 0 else (firstIdxFrom pred cs).map (· + 1)

/-- The lazy non-empty capture of a labeled section: the shortest non-empty
prefix of rest after which a terminator matches. -/
def lazyCaptureUntil (pred : List Char → Bool) (rest : List Char) : Option (List Char) :=
  match rest with
  | [] => none
  | _ :: t =>
    match firstIdxFrom pred t with
    | some p => some (rest.take (1 + p))
    | none => none

/-- Captures the labeled section word1 word2: of the context with bounded
look-ahead, the model of the three extraction regexes of the AI parser.
(The engine backtracking that can return a bare separator when nothing
follows the label is not modeled; such a capture would be trimmed to the
empty string and replaced by the defaults anyway.) -/
def extractSection (w1 w2 : List Char) (terms : List (List Char))
    (context : List Char) : Option (List Char) :=
  match findFirstMatchPos (labelHeadAt w1 w2) context with
  | some (pos, len) => lazyCaptureUntil (sectionTermAt terms) ((context.drop pos).drop len)
  | none => none

/-- Terminators of the VIRAL POTENTIAL extraction regex. -/
def viralTermsList : List (List Char) :=
  [strL "\n\ntarget", strL "\ntarget", strL "\n\nselected", strL "\nselected",
   strL "\n\nduration", strL "\nduration"]

/-- Terminators of the TARGET AUDIENCE extraction regex. -/
def audienceTermsList : List (List Char) :=
  [strL "\n\nselected", strL "\nselected", strL "\n\nduration", strL "\nduration"]

/-- Terminators of the DURATION EFFECTIVENESS extraction regex. -/
def durEffTermsList : List (List Char) :=
  [strL "\n\nselected", strL "\nselected"]

/-- The clip mention whose first occurrence anchors the context, and the
context substring from it (JS substring of a -1 index starts at 0). -/
def contextAfterOf (response : List Char) (m : ClipMatch) : List Char :=
  let mention := match m.full with
    | some f => f
    | none => strL "CLIP " ++ m.digits
  response.drop ((indexOfSub mention response).getD 0)

/-- The per-match enrichment step of the AI parser (lines 363..418 of
clipper.js): 1-based to 0-based translation, bounds validation, section
extraction and defaults. -/
def selOfMatch (response : List Char) (pool : List Clip) (m : ClipMatch) : Option Clip :=
  let clipNumber : ℤ := (parseDigits m.digits : ℤ) - 1
  let context := contextAfterOf response m
  let reason0 : List Char :=
    match extractSection (strL "viral") (strL "potential") viralTermsList context with
    | some r => jsTrim r
    | none =>
      match m.reason2 with
      | some r2 => jsTrim r2
      | none => []
  let audience0 : List Char :=
    match extractSection (strL "target") (strL "audience") audienceTermsList context with
    | some r => jsTrim r
    | none => []
  let durEff0 : List Char :=
    match extractSection (strL "duration") (strL "effectiveness") durEffTermsList context with
    | some r => jsTrim r
    | none => []
  if 0 ≤ clipNumber ∧ clipNumber < pool.length then
    some { pool.getD clipNumber.toNat default with
      reason := if reason0.isEmpty then
          strL "Selected by AI (Clip " ++ Nat.toDigits 10 (parseDigits m.digits) ++ strL ")"
        else reason0
      targetAudience := some (if audience0.isEmpty then strL "General audience" else audience0)
      durationEffectiveness := durEff0
      aiSelected := true }
  else none

/-- The map-then-drop-nulls step building selectedClips from the matches. -/
def selectionsFromMatches (response : List Char) (pool : List Clip)
    (ms : List ClipMatch) : List Clip :=
  (ms.map (selOfMatch response pool)).reduceOption

/-- Head of the strategy-3 regex: (CLIP|SELECTION) \s* (\d+|#\d+),
case-insensitive, returning the consumed length. -/
def s3HeadAt (cs : List Char) : Option ℕ :=
  let kw : Option ℕ :=
    if lowerL (cs.take 4) = strL "clip" then some 4
    else if lowerL (cs.take 9) = strL "selection" then some 9
    else none
  match kw with
  | none => none
  | some k =>
    let cs1 := cs.drop k
    let w := (cs1.takeWhile isWsChar).length
    let cs2 := cs1.drop w
    let ds := cs2.takeWhile Char.isDigit
    if !ds.isEmpty then some (k + w + ds.length)
    else if cs2.head? = some '#' then
      let ds2 := ((cs2.drop 1).takeWhile Char.isDigit)
      if !ds2.isEmpty then some (k + w + 1 + ds2.length) else none
    else none

/-- VIRAL \s* POTENTIAL \s* : (mandatory colon) at the head of cs,
case-insensitive, returning the consumed length. -/
def viralColonHeadAt (cs : List Char) : Option ℕ :=
  if lowerL (cs.take 5) = strL "viral" then
    let cs1 := cs.drop 5
    let w1 := (cs1.takeWhile isWsChar).length
    let cs2 := cs1.drop w1
    if lowerL (cs2.take 9) = strL "potential" then
      let cs3 := cs2.drop 9
      let w2 := (cs3.takeWhile isWsChar).length
      let cs4 := cs3.drop w2
      if cs4.head? = some ':' then some (5 + w1 + 9 + w2 + 1) else none
    else none
  else none

/-- Terminator of the strategy-3 capture: a blank line, a TARGET line, or a
literal z or Z. In a JavaScript non-unicode regex the escape in the third
alternative of the source pattern is an identity escape matching the letter
Z, case-folded to z by the i flag; it is not an end-of-input anchor, so the
capture cannot terminate at the end of the text. -/
def s3TermAt (r : List Char) : Bool :=
  decide (r.take 2 = strL "\n\n") ||
  decide (lowerL (r.take 7) = strL "\ntarget") ||
  decide (r.head? = some 'z') ||
  decide (r.head? = some 'Z')

/-- One attempt of the strategy-3 dotall regex at the head of cs: clip
mention, first newline, first VIRAL POTENTIAL colon after it, lazy capture
to the first terminator; returns the match length and the capture. -/
def s3MatchAt (cs : List Char) : Option (ℕ × List Char) :=
  match s3HeadAt cs with
  | none => none
  | some hLen =>
    let rest1 := cs.drop hLen
    match indexOfSub (strL "\n") rest1 with
    | none => none
    | some n1 =>
      let rest2 := rest1.drop (n1 + 1)
      match findFirstMatchPos viralColonHeadAt rest2 with
      | none => none
      | some (pos, vLen) =>
        let rest3 := (rest2.drop pos).drop vLen
        match lazyCaptureUntil s3TermAt rest3 with
        | none => none
        | some cap =>
          let after := rest3.drop cap.length
          let tLen : ℕ :=
            if after.take 2 = strL "\n\n" then 2
            else if lowerL (after.take 7) = strL "\ntarget" then 7
            else if after.head? = some 'z' ∨ after.head? = some 'Z' then 1
            else 0
          some (hLen + n1 + 1 + pos + vLen + cap.length + tLen, cap)

/-- First digit capture of the contextual clip-number extraction regex
(CLIP|SELECTION) \s* #? \s* (\d+), case-insensitive, at the head of cs. -/
def clipNumAt (cs : List Char) : Option (List Char) :=
  let kw : Option ℕ :=
    if lowerL (cs.take 4) = strL "clip" then some 4
    else if lowerL (cs.take 9) = strL "selection" then some 9
    else none
  match kw with
  | none => none
  | some k =>
    let cs1 := cs.drop k
    let w1 := (cs1.takeWhile isWsChar).length
    let cs2 := cs1.drop w1
    let c1 : ℕ := if cs2.head? = some '#' then 1 else 0
    let cs3 := cs2.drop c1
    let w2 := (cs3.takeWhile isWsChar).length
    let cs4 := cs3.drop w2
    let ds := cs4.takeWhile Char.isDigit
    if ds.isEmpty then none else some ds

/-- First successful position of an option-producing matcher. -/
def findFirstSome {α : Type} (tryAt : List Char → Option α) : List Char → Option α
  | [] => tryAt []
  | c :: cs =>
    match tryAt (c :: cs) with
    | some a => some a
    | none => findFirstSome tryAt cs

/-- Strategy-3 matches: pair each VIRAL POTENTIAL block with the clip
number found before the literal VIRAL POTENTIAL text of the match. -/
def strategy3Matches (response : List Char) : List ClipMatch :=
  (scanGen s3MatchAt response).filterMap (fun p =>
    let contextBefore :=
      p.1.take ((indexOfSub (strL "VIRAL POTENTIAL") p.1).getD p.1.length)
    (findFirstSome clipNumAt contextBefore).map
      (fun ds => ⟨none, ds, some (jsTrim p.2)⟩))

/-- Tail of the strategy-4 regex at a keyword candidate position:
(CLIP|clip) \s+ (\d+) ($|newline|colon), case-sensitive keyword. -/
def s4TailFrom (cs : List Char) : Option ℕ :=
  if cs.take 4 = strL "CLIP" ∨ cs.take 4 = strL "clip" then
    let cs1 := cs.drop 4
    let w := (cs1.takeWhile isWsChar).length
    if w = 0 then none else
    let cs2 := cs1.drop w
    let ds := cs2.takeWhile Char.isDigit
    if ds.isEmpty then none else
    let cs3 := cs2.drop ds.length
    match cs3.head? with
    | none => some (4 + w + ds.length)
    | some c => if c = '\n' ∨ c = ':' then some (4 + w + ds.length + 1) else none
  else none

/-- Scan one line (no newline may precede the keyword) for the strategy-4
tail; returns the offset of the keyword and the tail length. -/
def s4ScanLine : List Char → Option (ℕ × ℕ)
  | [] => none
  | c :: cs =>
    match s4TailFrom (c :: cs) with
    | some len => some (0, len)
    | none =>
      if c = '\n' then none
      else (s4ScanLine cs).map (fun p => (p.1 + 1, p.2))

/-- Scan for newline-anchored strategy-4 matches, resuming after each. -/
def s4ScanAux : List Char → List (List Char)
  | [] => []
  | c :: cs =>
    if c = '\n' then
      match s4ScanLine cs with
      | some (off, len) =>
        ((c :: cs).take (1 + off + len)) :: s4ScanAux ((c :: cs).drop (1 + off + len))
      | none => s4ScanAux cs
    else s4ScanAux cs
termination_by l => l.length
decreasing_by
  all_goals (simp only [List.length_drop, List.length_cons]; omega)

/-- All strategy-4 matches: the start-of-text anchor first, then the
newline anchors. -/
def s4Matches (response : List Char) : List (List Char) :=
  match s4ScanLine response with
  | some (off, len) =>
    (response.take (off + len)) :: s4ScanAux (response.drop (off + len))
  | none => s4ScanAux response

/-- First digit run with word boundaries on both sides; the flag records
whether the previous character was a word character. -/
def firstBoundedNumber : Bool → List Char → Option (List Char)
  | _, [] => none
  | prev, c :: cs =>
    if !prev ∧ c.isDigit = true then
      let run := (c :: cs).takeWhile Char.isDigit
      let after := (c :: cs).drop run.length
      let ok : Bool := match after.head? with
        | none => true
        | some d => !isWordChar d
      if ok then some run else firstBoundedNumber (isWordChar c) cs
    else firstBoundedNumber (isWordChar c) cs

/-- The 0-based indices recovered by strategy 4, bounds-filtered. -/
def s4Indices (response : List Char) (poolLen : ℕ) : List ℤ :=
  ((s4Matches response).map (fun mention =>
    match firstBoundedNumber false mention with
    | some ds => (parseDigits ds : ℤ) - 1
    | none => (-1 : ℤ))).filter (fun i => decide (0 ≤ i) && decide (i < poolLen))

/-- The strategy order of the cascade: strategy 1, else strategy 2, else
strategy 3. -/
def cascadeMatches (response : List Char) : List ClipMatch :=
  let s1 := strategy1Matches response
  if s1.isEmpty then
    let s2 := strategy2Matches response
    if s2.isEmpty then strategy3Matches response else s2
  else s1

/-- The strategy-4 selections built from the unique in-range mention
indices (reason only, no target audience). -/
def strategy4Selections (response : List Char) (pool : List Clip) : List Clip :=
  (dedupKeepFirst (s4Indices response pool.length)).map (fun i =>
    { pool.getD i.toNat default with
      reason := strL "Mentioned by AI as Clip " ++ Nat.toDigits 10 (i.toNat + 1)
      aiSelected := true })

/-- The complete parsing cascade of the AI reply, without the fallback:
strategies 1..3 mapped through the enrichment step; when that yields
nothing, the strategy-4 mention scan. -/
def cascadeSelections (response : List Char) (pool : List Clip) : List Clip :=
  let selected := selectionsFromMatches response pool (cascadeMatches response)
  if !selected.isEmpty then selected
  else strategy4Selections response pool

/-- The AI selection step of identifyClipsFromFullText and
identifyClipsFromUtterances, parameterized over the outcome of the LLM
call: an error (thrown call) or the reply text; every parse failure path
ends in fallbackClipSelection over the same pool. -/
def aiSelectionStep (pool : List Clip) (llmResult : Except Unit (List Char)) : List Clip :=
  match llmResult with
  | Except.error _ => fallbackClipSelection pool
  | Except.ok response =>
    let sels := cascadeSelections response pool
    if sels.isEmpty then fallbackClipSelection pool else sels

/-- C4: whenever the LLM call errors, or the full parsing cascade yields no
valid selection, the AI selection step returns exactly
fallbackClipSelection on the same candidate pool (the embedding is total,
so no exception escapes, and the pool is passed unchanged). -/
theorem C4_failure_falls_back (pool : List Clip) (r : Except Unit (List Char))
    (h : r = Except.error () ∨
      ∃ t, r = Except.ok t ∧ cascadeSelections t pool = []) :
    aiSelectionStep pool r = fallbackClipSelection pool := by
  rcases h with h | ⟨t, rfl, ht⟩
  · subst h; rfl
  · simp [aiSelectionStep, ht]

theorem C4_witness :
    (Except.ok (strL "hello") = (Except.error () : Except Unit (List Char)) ∨
      ∃ t, (Except.ok (strL "hello") : Except Unit (List Char)) = Except.ok t ∧
        cascadeSelections t [(default : Clip)] = []) ∧
    aiSelectionStep [(default : Clip)] (Except.ok (strL "hello")) =
      fallbackClipSelection [(default : Clip)] := by
  have h : Except.ok (strL "hello") = (Except.error () : Except Unit (List Char)) ∨
      ∃ t, (Except.ok (strL "hello") : Except Unit (List Char)) = Except.ok t ∧
        cascadeSelections t [(default : Clip)] = [] :=
    Or.inr ⟨strL "hello", rfl, by with_unfolding_all decide⟩
  exact ⟨h, C4_failure_falls_back [(default : Clip)] (Except.ok (strL "hello")) h⟩

theorem selOfMatch_isSome (response : List Char) (pool : List Clip) (m : ClipMatch) :
    (selOfMatch response pool m).isSome = true ↔
      1 ≤ parseDigits m.digits ∧ parseDigits m.digits ≤ pool.length := by
  simp only [selOfMatch]
  split
  · rename_i hc
    simp only [Option.isSome_some, true_iff]
    omega
  · rename_i hc
    simp only [Option.isSome_none, Bool.false_eq_true, false_iff]
    intro hcon
    exact hc ⟨by omega, by omega⟩

theorem selOfMatch_base (response : List Char) (pool : List Clip) (m : ClipMatch)
    (sel : Clip) (hsel : selOfMatch response pool m = some sel) :
    sel = { pool.getD (parseDigits m.digits - 1) default with
      reason := sel.reason
      targetAudience := sel.targetAudience
      durationEffectiveness := sel.durationEffectiveness
      aiSelected := true } := by
  simp only [selOfMatch] at hsel
  split at hsel
  · rename_i hc
    have hidx : ((parseDigits m.digits : ℤ) - 1).toNat = parseDigits m.digits - 1 := by
      omega
    rw [Option.some_inj] at hsel
    subst hsel
    rw [hidx]
  · cases hsel

theorem selOfMatch_reason_block (response : List Char) (pool : List Clip)
    (m : ClipMatch) (sel : Clip) (r : List Char)
    (hsel : selOfMatch response pool m = some sel)
    (hext : extractSection (strL "viral") (strL "potential") viralTermsList
      (contextAfterOf response m) = some r)
    (hr : jsTrim r ≠ []) : sel.reason = jsTrim r := by
  simp only [selOfMatch, hext] at hsel
  split at hsel
  · rw [Option.some_inj] at hsel
    subst hsel
    simp [List.isEmpty_eq_false.mpr hr]
  · cases hsel

/-- The concrete pool of the C5 scenario. -/
def c5Pool : List Clip :=
  [{ text := strL "a", start := 0, endTime := 10, duration := 10 },
   { text := strL "b", start := 20, endTime := 32, duration := 12 },
   { text := strL "c", start := 40, endTime := 55, duration := 15 }]

/-- The concrete LLM reply of the C5 scenario. -/
def c5Response : List Char :=
  strL "SELECTED CLIP #: 3\nVIRAL POTENTIAL: Strong hook and a clear payoff.\n"

/-- C5: the selection builder drops exactly the out-of-range clip numbers
(1-based n is kept iff 1 <= n <= pool size); a kept match yields the pool
candidate n-1 enriched with reason, audience, duration-effectiveness and
the aiSelected flag, the reason being the trimmed associated VIRAL
POTENTIAL block whenever one is found and trims non-empty; on the scenario
reply SELECTED CLIP #: 3 with a VIRAL POTENTIAL block over a 3-candidate
pool, the parsed selection is pool candidate 2 (0-based) carrying the
trimmed block as reason. -/
theorem C5_parse_selmen (response : List Char) (pool : List Clip)
    (ms : List ClipMatch) :
    selectionsFromMatches response pool ms = ms.filterMap (selOfMatch response pool) ∧
    (∀ m : ClipMatch, (selOfMatch response pool m).isSome = true ↔
      1 ≤ parseDigits m.digits ∧ parseDigits m.digits ≤ pool.length) ∧
    (∀ (m : ClipMatch) (sel : Clip), selOfMatch response pool m = some sel →
      sel = { pool.getD (parseDigits m.digits - 1) default with
        reason := sel.reason
        targetAudience := sel.targetAudience
        durationEffectiveness := sel.durationEffectiveness
        aiSelected := true }) ∧
    (∀ (m : ClipMatch) (sel : Clip) (r : List Char),
      selOfMatch response pool m = some sel →
      extractSection (strL "viral") (strL "potential") viralTermsList
        (contextAfterOf response m) = some r →
      jsTrim r ≠ [] → sel.reason = jsTrim r) ∧
    cascadeSelections c5Response c5Pool =
      [{ c5Pool.getD 2 default with
          reason := strL "Strong hook and a clear payoff."
          targetAudience := some (strL "General audience")
          durationEffectiveness := []
          aiSelected := true }] := by
  refine ⟨?_, selOfMatch_isSome response pool,
    selOfMatch_base response pool,
    fun m sel r => selOfMatch_reason_block response pool m sel r,
    by with_unfolding_all decide⟩
  show (ms.map (selOfMatch response pool)).reduceOption =
    ms.filterMap (selOfMatch response pool)
  rw [List.reduceOption, List.filterMap_map]
  rfl

theorem selOfMatch_fields (response : List Char) (pool : List Clip) (m : ClipMatch)
    (sel : Clip) (hsel : selOfMatch response pool m = some sel) :
    sel.reason ≠ [] ∧ ∃ a, sel.targetAudience = some a ∧ a ≠ [] := by
  simp only [selOfMatch] at hsel
  split at hsel
  · rw [Option.some_inj] at hsel
    subst hsel
    constructor
    · show (if _ then _ else _) ≠ []
      split
      · exact List.append_ne_nil_of_left_ne_nil (by simp [strL]) _
      · rename_i hne
        simpa using hne
    · refine ⟨_, rfl, ?_⟩
      split
      · simp [strL]
      · rename_i hne
        simpa using hne
  · cases hsel

theorem mem_fallbackTopUp :
    ∀ (rem sel : List Clip) (x : Clip), x ∈ fallbackTopUp sel rem →
      x ∈ sel ∨ x ∈ rem := by
  intro rem
  induction rem with
  | nil =>
    intro sel x hx
    rw [fallbackTopUp] at hx
    exact Or.inl hx
  | cons next rest ih =>
    intro sel x hx
    rw [fallbackTopUp] at hx
    split at hx
    · exact Or.inl hx
    · split at hx
      · rcases ih sel x hx with h | h
        · exact Or.inl h
        · exact Or.inr (List.mem_cons_of_mem _ h)
      · rcases ih (sel ++ [next]) x hx with h | h
        · rcases List.mem_append.mp h with h2 | h2
          · exact Or.inl h2
          · exact Or.inr (by simpa using Or.inl (List.mem_singleton.mp h2))
        · exact Or.inr (List.mem_cons_of_mem _ h)

theorem mem_fallbackInitialPicks (scored : List Clip) (p : Clip)
    (hp : p ∈ fallbackInitialPicks scored) : p ∈ scored := by
  rcases List.mem_filterMap.mp hp with ⟨cat, -, hhead⟩
  have hmem : p ∈ catFilterSorted scored cat := by
    cases hcs : catFilterSorted scored cat with
    | nil => simp [hcs] at hhead
    | cons a t =>
      rw [hcs] at hhead
      have ha : a = p := by simpa using hhead
      rw [← ha]
      exact List.mem_cons_self _ _
  rw [catFilterSorted, List.mem_mergeSort] at hmem
  exact (List.mem_filter.mp hmem).1

theorem fallbackScored_reason (c : Clip) : (fallbackScored c).reason ≠ [] := by
  show strL "Selected for likely viral elements: " ++ _ ≠ []
  exact List.append_ne_nil_of_left_ne_nil (by simp [strL]) _

theorem fallback_reason_nonempty (pool : List Clip) :
    ∀ c ∈ fallbackClipSelection pool, c.reason ≠ [] := by
  intro c hc
  have hscored : c ∈ pool.map fallbackScored := by
    simp only [fallbackClipSelection] at hc
    split at hc
    · cases hc
    · split at hc
      · have := List.mem_of_mem_take hc
        rw [List.mem_mergeSort] at this
        exact mem_fallbackInitialPicks _ _ this
      · split at hc
        · rcases mem_fallbackTopUp _ _ _ hc with h | h
          · exact mem_fallbackInitialPicks _ _ h
          · rw [List.mem_mergeSort] at h
            exact (List.mem_filter.mp h).1
        · exact mem_fallbackInitialPicks _ _ hc
  rcases List.mem_map.mp hscored with ⟨c0, -, hc0⟩
  rw [← hc0]
  exact fallbackScored_reason c0

theorem cascade_reason_nonempty (response : List Char) (pool : List Clip) :
    ∀ sel ∈ cascadeSelections response pool, sel.reason ≠ [] := by
  intro sel hsel
  simp only [cascadeSelections] at hsel
  split at hsel
  · have hsome : some sel ∈ (cascadeMatches response).map (selOfMatch response pool) :=
      List.reduceOption_mem_iff.mp hsel
    rcases List.mem_map.mp hsome with ⟨m, -, hm⟩
    exact (selOfMatch_fields response pool m sel hm).1
  · rcases List.mem_map.mp hsel with ⟨i, -, hi⟩
    rw [← hi]
    show strL "Mentioned by AI as Clip " ++ _ ≠ []
    exact List.append_ne_nil_of_left_ne_nil (by simp [strL]) _

/-- C10 (amended): every selection produced by the AI parsing step
(labeled-section parse, mention scan, or the fallback ranker it defers to)
carries a non-empty reason; selections built by the labeled-section parse
additionally carry a non-empty targetAudience (defaulting to General
audience), while mention-scan selections carry none. -/
theorem C10_reasons_nonempty (pool : List Clip) (r : Except Unit (List Char)) :
    (∀ sel ∈ aiSelectionStep pool r, sel.reason ≠ []) ∧
    (∀ (response : List Char) (m : ClipMatch) (sel : Clip),
      selOfMatch response pool m = some sel →
      ∃ a, sel.targetAudience = some a ∧ a ≠ []) := by
  constructor
  · intro sel hsel
    cases r with
    | error e => exact fallback_reason_nonempty pool sel hsel
    | ok response =>
      have : sel ∈ (let sels := cascadeSelections response pool;
          if sels.isEmpty then fallbackClipSelection pool else sels) := hsel
      by_cases he : (cascadeSelections response pool).isEmpty = true
      · rw [if_pos he] at this
        exact fallback_reason_nonempty pool sel this
      · rw [if_neg he] at this
        exact cascade_reason_nonempty response pool sel this
  · intro response m sel hm
    exact (selOfMatch_fields response pool m sel hm).2

/-- The concrete pool of the C10 counterexample. -/
def c10Pool : List Clip :=
  [{ text := strL "p", start := 0, endTime := 10, duration := 10 },
   { text := strL "q", start := 20, endTime := 32, duration := 12 },
   { text := strL "s", start := 40, endTime := 55, duration := 15 }]

/-- C10 counterexample: a reply whose only labeled match is out of range
falls through to the mention scan, whose selection carries aiSelected but
no targetAudience, refuting the claim that AI-path selections always carry
a non-empty targetAudience. -/
theorem C10_counterexample :
    ∃ sel ∈ aiSelectionStep c10Pool
      (Except.ok (strL "SELECTED CLIP #: 99\nx\nclip 2\n")),
      sel.aiSelected = true ∧ sel.targetAudience = none := by
  with_unfolding_all decide

/-- A speaker utterance with millisecond timestamps, as delivered by the
transcription provider. -/
structure Utt where
  text : List Char
  start : ℚ
  endMs : ℚ
  speaker : ℕ := 0
deriving DecidableEq, Repr

/-- The sentence-terminator-at-end test of the utterance and basic paths. -/
def endsWithTerminator (cs : List Char) : Bool :=
  match cs.reverse.dropWhile isWsChar with
  | [] => false
  | c :: _ => isSentPunct c

/-- End index (index + length) of the last match of the sentence-boundary
regex: a terminator followed by at least one whitespace character. -/
def lastBoundaryIdxAux : List Char → ℕ → Option ℕ → Option ℕ
  | [], _, best => best
  | c :: cs, pos, best =>
    if isSentPunct c then
      let w := (cs.takeWhile isWsChar).length
      if w = 0 then lastBoundaryIdxAux cs (pos + 1) best
      else lastBoundaryIdxAux (cs.drop w) (pos + 1 + w) (some (pos + 1 + w))
    else lastBoundaryIdxAux cs (pos + 1) best
termination_by l _ _ => l.length
decreasing_by
  all_goals (simp only [List.length_drop, List.length_cons]; omega)

/-- End index of the last sentence boundary in the text, if any. -/
def lastBoundaryIdx (cs : List Char) : Option ℕ := lastBoundaryIdxAux cs 0 none

/-- Count of terminator runs: the model of (text.match of [.!?]+ or []).length. -/
def countPunctRuns : List Char → ℕ
  | [] => 0
  | c :: cs =>
    if isSentPunct c then 1 + countPunctRuns (cs.dropWhile isSentPunct)
    else countPunctRuns cs
termination_by l => l.length
decreasing_by
  all_goals simp only [List.length_cons]
  · exact Nat.lt_succ_of_le (lenDropWhileLe _ _)
  · omega

/-- The mid-window trim of identifyClipsFromUtterances: when the last
utterance does not end at a terminator and the window has more than one
utterance, cut it at the last sentence boundary (scaling its end time by
the character-offset fraction) or drop it entirely. -/
def trimLastUtt (wUtts : List Utt) (wEnd : ℚ) : List Utt × ℚ :=
  match wUtts.getLast? with
  | none => (wUtts, wEnd)
  | some last =>
    let lastText := jsTrim last.text
    if endsWithTerminator lastText then (wUtts, wEnd)
    else if 1 < wUtts.length then
      match lastBoundaryIdx lastText with
      | some bIdx =>
        let uttDur := (last.endMs - last.start) / 1000
        let frac : ℚ := (bIdx : ℚ) / (lastText.length : ℚ)
        let partialT := uttDur * frac
        (wUtts.dropLast ++ [{ last with
            text := jsTrim (lastText.take bIdx)
            endMs := last.start + partialT * 1000 }],
         last.start / 1000 + partialT)
      | none => (wUtts.dropLast, last.start / 1000)
    else (wUtts, wEnd)

/-- Indicator keyword lists of the utterance-path viral heuristics. -/
def emoRegexList : List (List Char) :=
  [strL "amazing", strL "incredible", strL "surprising", strL "shocking",
   strL "never", strL "always", strL "changed", strL "stunned", strL "realized",
   strL "discovered", strL "astonishing", strL "powerful"]

/-- Story-structure keyword list of the utterance-path heuristics. -/
def storyRegexList : List (List Char) :=
  [strL "when", strL "there was", strL "once", strL "eventually", strL "at first",
   strL "finally", strL "ultimately"]

/-- Educational-framing keyword list of the utterance-path heuristics. -/
def eduValueRegexList : List (List Char) :=
  [strL "learn", strL "understand", strL "know", strL "explain", strL "how to",
   strL "works", strL "actually", strL "truth", strL "fact", strL "research",
   strL "found", strApo "most people don" "t", strL "realize", strL "secret"]

/-- Curiosity-hook keyword list of the utterance-path heuristics. -/
def curiosityHookList : List (List Char) :=
  [strL "what if", strApo "here" "s why", strL "the truth about",
   strApo "most people don" "t know", strL "the secret to", strL "this is how",
   strApo "you won" "t believe", strL "the real reason"]

/-- The viral score summed from the four indicator bonuses. -/
def uttViralScore (text : List Char) : ℚ :=
  (if testAltCI emoRegexList text then 0.15 else 0) +
  (if testAltCI storyRegexList text then 0.15 else 0) +
  (if testAltCI eduValueRegexList text then 0.15 else 0) +
  (if testAltCI curiosityHookList text then 0.25 else 0)

/-- The clip pushed by the utterance window loop once a window of at least
5 seconds survives trimming. -/
def mkUttClip (windowStart wEnd : ℚ) (wUtts : List Utt) : Clip :=
  let text := joinSpace (wUtts.map Utt.text)
  let wordCount := (jsSplitWs text).length
  let sentenceCount := countPunctRuns text
  let viral := uttViralScore text
  let d := wEnd - windowStart
  { text := text
    start := windowStart
    endTime := wEnd
    duration := d
    wordCount := wordCount
    sentenceCount := sentenceCount
    qualityScore := 0.3 * (1 - |d - 15| / 15) + 0.1 * (sentenceCount : ℚ) +
      ((wordCount : ℚ) / d) / 5 + 0.5 * viral
    viralScore := viral
    completeEnding := true }

/-- The inner window loop of identifyClipsFromUtterances for one start
index: extend utterance by utterance up to the 60-second ceiling, trimming
to sentence boundaries, emitting a clip once the trimmed window is at
least 5 seconds. -/
def windowLoop (windowStart : ℚ) : List Utt → List Utt → ℚ → List Clip
  | [], _, _ => []
  | u :: rest, wUtts, _wEnd =>
    if 60 < u.endMs / 1000 - windowStart then []
    else
      let wUtts1 := wUtts ++ [u]
      let wEnd1 := u.endMs / 1000
      if 5 ≤ wEnd1 - windowStart then
        let p := trimLastUtt wUtts1 wEnd1
        if 5 ≤ p.2 - windowStart then
          mkUttClip windowStart p.2 p.1 :: windowLoop windowStart rest p.1 p.2
        else windowLoop windowStart rest p.1 p.2
      else windowLoop windowStart rest wUtts1 wEnd1

/-- The adjusted end time and text of a single-utterance candidate: keep the
utterance when it ends at a terminator, else cut at the last sentence
boundary (scaling the end time), else keep it unchanged. -/
def singleAdj (u : Utt) : ℚ × List Char :=
  if endsWithTerminator (jsTrim u.text) then (u.endMs / 1000, u.text)
  else
    match lastBoundaryIdx u.text with
    | some bIdx =>
      (u.start / 1000 + ((u.endMs - u.start) / 1000) * ((bIdx : ℚ) / (u.text.length : ℚ)),
       jsTrim (u.text.take bIdx))
    | none => (u.endMs / 1000, u.text)

/-- The single-utterance candidate of identifyClipsFromUtterances. -/
def singleUttClip (u : Utt) : Option Clip :=
  let dur := (u.endMs - u.start) / 1000
  if 5 ≤ dur ∧ dur ≤ 60 then
    let text := u.text
    let wordCount := (jsSplitWs text).length
    if 10 ≤ wordCount then
      let sentenceCount := countPunctRuns text
      if 1 ≤ sentenceCount then
        let adj : ℚ × List Char := singleAdj u
        let adjDur := adj.1 - u.start / 1000
        if 5 ≤ adjDur then
          let aText := adj.2
          let aWordCount := (jsSplitWs aText).length
          let aSentenceCount := countPunctRuns aText
          let viral := uttViralScore aText
          some { text := aText
                 start := u.start / 1000
                 endTime := adj.1
                 duration := adjDur
                 wordCount := aWordCount
                 sentenceCount := aSentenceCount
                 qualityScore := 0.3 * (1 - |adjDur - 15| / 15) +
                   0.1 * (aSentenceCount : ℚ) + 0.5 * viral
                 viralScore := viral
                 completeEnding := true }
        else none
      else none
    else none
  else none

/-- The candidate-generation stage of identifyClipsFromUtterances: for
every start index, the window clips followed by the single-utterance
candidate. -/
def identifyClipsFromUtterancesCandidates (utts : List Utt) : List Clip :=
  ((List.range utts.length).map (fun i =>
    match utts.drop i with
    | [] => []
    | u :: rest =>
      windowLoop (u.start / 1000) (u :: rest) [] (u.start / 1000) ++
      (match singleUttClip u with
       | some c => [c]
       | none => []))).flatten

/-- The flush-time trim of the basic identifyClips fallback (kept faithful
to the source, including the ratio taken over the reassigned text). -/
def basicFlushTrim (clip : Clip) : Clip :=
  if endsWithTerminator (jsTrim clip.text) then clip
  else
    match lastBoundaryIdx clip.text with
    | some bIdx =>
      let newText := jsTrim (clip.text.take bIdx)
      let frac : ℚ := (bIdx : ℚ) / (newText.length : ℚ)
      let adjD := clip.duration * frac
      { clip with text := newText, endTime := clip.start + adjD, duration := adjD }
    | none => clip

/-- One step state of the basic fallback: flush the current clip when the
next utterance would exceed CLIP_MAX_DURATION, else extend it. -/
def identifyClipsAux : List Utt → Clip → List Clip
  | [], current =>
    let fin := basicFlushTrim current
    if CLIP_MIN_DURATION ≤ fin.duration then [fin] else []
  | u :: rest, current =>
    if CLIP_MAX_DURATION < u.endMs / 1000 - current.start then
      let fin := basicFlushTrim current
      let newCur : Clip := { text := u.text
                             start := u.start / 1000
                             endTime := u.endMs / 1000
                             duration := u.endMs / 1000 - u.start / 1000
                             reason := strL "Basic clip identification" }
      if CLIP_MIN_DURATION ≤ fin.duration then fin :: identifyClipsAux rest newCur
      else identifyClipsAux rest newCur
    else
      identifyClipsAux rest { current with
        endTime := u.endMs / 1000
        text := current.text ++ ' ' :: u.text
        duration := u.endMs / 1000 - current.start }

/-- identifyClips from clipper.js (the basic fallback), capped at 5 clips. -/
def identifyClips (utts : List Utt) : List Clip :=
  match utts with
  | [] => []
  | u :: rest =>
    (identifyClipsAux rest { text := u.text
                             start := u.start / 1000
                             endTime := u.endMs / 1000
                             duration := u.endMs / 1000 - u.start / 1000
                             reason := strL "Basic clip identification" }).take 5

theorem windowLoop_P (windowStart : ℚ) :
    ∀ (l wUtts : List Utt) (wEnd : ℚ) (c : Clip),
      c ∈ windowLoop windowStart l wUtts wEnd →
      c.duration = c.endTime - c.start ∧ 5 ≤ c.duration := by
  intro l
  induction l with
  | nil =>
    intro wUtts wEnd c hc
    rw [windowLoop] at hc
    cases hc
  | cons u rest ih =>
    intro wUtts wEnd c hc
    simp only [windowLoop] at hc
    split at hc
    · cases hc
    · split at hc
      · split at hc
        · rename_i hguard
          rcases List.mem_cons.mp hc with rfl | hc2
          · exact ⟨rfl, hguard⟩
          · exact ih _ _ c hc2
        · exact ih _ _ c hc
      · exact ih _ _ c hc

theorem maxTime_floor (aD : Option ℚ)
    (hd : ∀ d, aD = some d → d ≠ 0 → CLIP_MIN_DURATION * 0.7 ≤ d) :
    CLIP_MIN_DURATION * 0.7 ≤ maxTimeOf aD := by
  cases aD with
  | none => norm_num [maxTimeOf, CLIP_MIN_DURATION]
  | some d =>
    by_cases hz : d ≠ 0
    · simpa [maxTimeOf, hz] using hd d rfl hz
    · show CLIP_MIN_DURATION * 0.7 ≤ if d ≠ 0 then d else 86400
      rw [if_neg hz]
      norm_num [CLIP_MIN_DURATION]

theorem singleUttClip_P (u : Utt) (c : Clip) (h : singleUttClip u = some c) :
    c.duration = c.endTime - c.start ∧ 5 ≤ c.duration := by
  simp only [singleUttClip] at h
  split at h
  · split at h
    · split at h
      · split at h
        · rename_i hguard
          rw [Option.some_inj] at h
          subst h
          exact ⟨rfl, hguard⟩
        · cases h
      · cases h
    · cases h
  · cases h

theorem basicFlushTrim_Q (clip : Clip)
    (h : clip.duration = clip.endTime - clip.start) :
    (basicFlushTrim clip).duration =
      (basicFlushTrim clip).endTime - (basicFlushTrim clip).start := by
  simp only [basicFlushTrim]
  split
  · exact h
  · split
    · simp
    · exact h

theorem identifyClipsAux_P :
    ∀ (l : List Utt) (current : Clip),
      current.duration = current.endTime - current.start →
      ∀ c ∈ identifyClipsAux l current,
        c.duration = c.endTime - c.start ∧ 5 ≤ c.duration := by
  intro l
  induction l with
  | nil =>
    intro current hQ c hc
    simp only [identifyClipsAux] at hc
    split at hc
    · rename_i hd
      rcases List.mem_singleton.mp hc with rfl
      refine ⟨basicFlushTrim_Q current hQ, ?_⟩
      have h8 : (8 : ℚ) ≤ (basicFlushTrim current).duration := by
        simpa [CLIP_MIN_DURATION] using hd
      linarith
    · cases hc
  | cons u rest ih =>
    intro current hQ c hc
    simp only [identifyClipsAux] at hc
    split at hc
    · split at hc
      · rename_i hd
        rcases List.mem_cons.mp hc with rfl | hc2
        · refine ⟨basicFlushTrim_Q current hQ, ?_⟩
          have h8 : (8 : ℚ) ≤ (basicFlushTrim current).duration := by
            simpa [CLIP_MIN_DURATION] using hd
          linarith
        · exact ih _ rfl c hc2
      · exact ih _ rfl c hc
    · exact ih _ rfl c hc

/-- C2 (amended): every generated candidate keeps duration = end - start;
the 5-second floor holds unconditionally for the utterance path and the
basic fallback, and for the validated text path whenever the audio
duration, when present and nonzero, is at least CLIP_MIN_DURATION * 0.7
(it always holds when the audio duration is absent). -/
theorem C2_duration_invariants :
    (∀ (text : List Char) (aD : Option ℚ) (clip : Clip),
        clip ∈ textPathValidatedClips text aD →
        clip.duration = clip.endTime - clip.start ∧
        ((∀ d, aD = some d → d ≠ 0 → CLIP_MIN_DURATION * 0.7 ≤ d) →
          5 ≤ clip.duration)) ∧
    (∀ (utts : List Utt) (clip : Clip),
        clip ∈ identifyClipsFromUtterancesCandidates utts →
        clip.duration = clip.endTime - clip.start ∧ 5 ≤ clip.duration) ∧
    (∀ (utts : List Utt) (clip : Clip),
        clip ∈ identifyClips utts →
        clip.duration = clip.endTime - clip.start ∧ 5 ≤ clip.duration) := by
  refine ⟨?_, ?_, ?_⟩
  · intro text aD clip hm
    simp only [textPathValidatedClips] at hm
    split at hm
    · cases hm
    · rcases List.mem_map.mp hm with ⟨c0, -, rfl⟩
      refine ⟨validateClip_duration_eq _ _, ?_⟩
      intro hd
      have hfloor := maxTime_floor aD hd
      have hge := validateClip_duration_floor _ c0 hfloor
      have h56 : (5 : ℚ) ≤ CLIP_MIN_DURATION * 0.7 := by norm_num [CLIP_MIN_DURATION]
      linarith
  · intro utts clip hm
    rcases List.mem_flatten.mp hm with ⟨lst, hl, hcl⟩
    rcases List.mem_map.mp hl with ⟨i, -, rfl⟩
    cases hdrop : utts.drop i with
    | nil => rw [hdrop] at hcl; cases hcl
    | cons u rest =>
      rw [hdrop] at hcl
      rcases List.mem_append.mp hcl with hw | hs
      · exact windowLoop_P _ _ _ _ clip hw
      · cases hsu : singleUttClip u with
        | none => rw [hsu] at hs; cases hs
        | some c1 =>
          rw [hsu] at hs
          rcases List.mem_singleton.mp hs with rfl
          exact singleUttClip_P u clip hsu
  · intro utts clip hm
    cases utts with
    | nil => cases hm
    | cons u rest =>
      exact identifyClipsAux_P rest _ rfl clip (List.mem_of_mem_take hm)

/-- Concrete utterance exercising the amended C2 on the utterance path. -/
def c2WitnessUtt : Utt :=
  { text := strL "one two three four five six seven eight nine ten done.",
    start := 0, endMs := 6000 }

/-- Concrete clip for the C2 witness. -/
def c2WitnessClip : Clip :=
  (identifyClipsFromUtterancesCandidates [c2WitnessUtt]).headI

theorem C2_witness :
    c2WitnessClip.duration = c2WitnessClip.endTime - c2WitnessClip.start ∧
    5 ≤ c2WitnessClip.duration :=
  C2_duration_invariants.2.1 [c2WitnessUtt] c2WitnessClip
    (by with_unfolding_all decide)

/-- First matching duration bucket (5-10, 10-15, 15-20, 20-30, 30-60 s) of
getDiverseClipSelectionWithDurations, or none when out of range. -/
def bucketIdxOf (c : Clip) : Option ℕ :=
  if 5 ≤ c.duration ∧ c.duration ≤ 10 then some 0
  else if 10 ≤ c.duration ∧ c.duration ≤ 15 then some 1
  else if 15 ≤ c.duration ∧ c.duration ≤ 20 then some 2
  else if 20 ≤ c.duration ∧ c.duration ≤ 30 then some 3
  else if 30 ≤ c.duration ∧ c.duration ≤ 60 then some 4
  else none

/-- The completeness-first preference: only complete-sentence clips when at
least ceil(maxClips/2) of them exist, else the whole pool. -/
def preferredOf (scoredClips : List Clip) (maxClips : ℕ) : List Clip :=
  let complete := scoredClips.filter (fun c => c.endsWithCompleteSentence)
  if (⌈(maxClips : ℚ) * 0.5⌉ : ℤ) ≤ (complete.length : ℤ) then complete else scoredClips

/-- The top-20-percent slice size. -/
def topCountOf (maxClips : ℕ) : ℕ := (⌈(maxClips : ℚ) * 0.2⌉ : ℤ).toNat

/-- The unconditional highest-quality slice. -/
def topClipsOf (scored : List Clip) (maxClips : ℕ) : List Clip :=
  (preferredOf scored maxClips).take (topCountOf maxClips)

/-- The clips distributed into duration buckets. -/
def remainingOf (scored : List Clip) (maxClips : ℕ) : List Clip :=
  (preferredOf scored maxClips).drop (topCountOf maxClips)

/-- The clips pushed into bucket b, in arrival order. -/
def bucketListOf (rem : List Clip) (b : ℕ) : List Clip :=
  rem.filter (fun c => bucketIdxOf c == some b)

/-- Bucket b sorted by quality score descending. -/
def sortedBucketOf (rem : List Clip) (b : ℕ) : List Clip :=
  List.mergeSort (bucketListOf rem b) (fun a b => b.qualityScore ≤ a.qualityScore)

/-- Number of non-empty duration buckets. -/
def nonEmptyBucketCount (rem : List Clip) : ℕ :=
  ((List.range 5).filter (fun b => !(bucketListOf rem b).isEmpty)).length

/-- Total number of bucketed clips. -/
def totalInBuckets (rem : List Clip) : ℕ :=
  ((List.range 5).map (fun b => (bucketListOf rem b).length)).sum

/-- The per-bucket share: at least one, else the floor of the proportional
split over the non-empty buckets. -/
def cpbOf (rem : List Clip) (remainingSlots : ℕ) : ℕ :=
  max 1 (remainingSlots / nonEmptyBucketCount rem)

/-- The per-bucket top picks. -/
def picksOf (rem : List Clip) (cpb : ℕ) : List Clip :=
  ((List.range 5).map (fun b => (sortedBucketOf rem b).take cpb)).flatten

/-- The quality-ordered fill drawn from the bucket leftovers. -/
def fillOf (rem : List Clip) (cpb used remainingSlots : ℕ) : List Clip :=
  if used < remainingSlots then
    (List.mergeSort (((List.range 5).map (fun b => (sortedBucketOf rem b).drop cpb)).flatten)
      (fun a b => b.qualityScore ≤ a.qualityScore)).take (remainingSlots - used)
  else []

/-- selectedFromBuckets of getDiverseClipSelectionWithDurations. -/
def selectedFromBucketsOf (rem : List Clip) (remainingSlots : ℕ) : List Clip :=
  if 0 < totalInBuckets rem then
    let cpb := cpbOf rem remainingSlots
    let picks := picksOf rem cpb
    picks ++ fillOf rem cpb picks.length remainingSlots
  else []

/-- The combined selection before deduplication. -/
def combinedOf (scored : List Clip) (maxClips : ℕ) : List Clip :=
  topClipsOf scored maxClips ++
    selectedFromBucketsOf (remainingOf scored maxClips)
      (maxClips - (topClipsOf scored maxClips).length)

/-- The near-duplicate test: start times within 10 seconds and either text
containing the first 50 characters of the other. -/
def nearDup (a b : Clip) : Bool :=
  decide (|a.start - b.start| < (10 : ℚ)) &&
  (containsSeq (b.text.take 50) a.text || containsSeq (a.text.take 50) b.text)

/-- One step of the similarity filter. -/
def dedupeStep (uniq : List Clip) (clip : Clip) : List Clip :=
  if uniq.any (fun c => nearDup c clip) then uniq else uniq ++ [clip]

/-- The similarity filter pass over the combined selection. -/
def dedupeFold (l : List Clip) : List Clip :=
  l.foldl dedupeStep []

/-- getDiverseClipSelectionWithDurations from clipper.js. -/
def getDiverseClipSelectionWithDurations (scoredClips : List Clip) (maxClips : ℕ) : List Clip :=
  (dedupeFold (combinedOf scoredClips maxClips)).take maxClips

/-- Number of duration buckets a list of clips touches. -/
def bucketSpan (l : List Clip) : ℕ :=
  ((List.range 5).filter (fun b => l.any (fun c => bucketIdxOf c == some b))).length

/-- A pool spanning three duration buckets whose complete-sentence clips all
have duration 12 s: eight complete 12-second clips at well-separated starts
plus an incomplete 7-second and an incomplete 25-second clip. -/
def c7Pool : List Clip :=
  ((List.range 8).map (fun i =>
    { start := ((100 * i : ℕ) : ℚ)
      endTime := ((100 * i : ℕ) : ℚ) + 12
      duration := 12
      qualityScore := ((i : ℕ) : ℚ)
      endsWithCompleteSentence := true })) ++
  [{ start := 2000
     endTime := 2007
     duration := 7 },
   { start := 3000
     endTime := 3025
     duration := 25 }]

/-- C7 counterexample: the pool c7Pool spans three duration buckets, yet
because its eight complete-sentence clips (at least ceil(15 * 0.5) of them)
all last 12 s, the completeness-first preference collapses the selection to
the 10-15 s bucket, so the output spans a single bucket. -/
theorem C7_counterexample :
    3 ≤ bucketSpan c7Pool ∧
    bucketSpan (getDiverseClipSelectionWithDurations c7Pool 15) < 3 := by
  with_unfolding_all decide

/-- A prefix slice of a text is always found inside it. -/
theorem containsSeq_take (l : List Char) (n : ℕ) : containsSeq (l.take n) l = true := by
  cases l with
  | nil => simp [containsSeq]
  | cons c cs =>
    unfold containsSeq
    have hp : (List.take n (c :: cs)).isPrefixOf (c :: cs) = true :=
      List.isPrefixOf_iff_prefix.mpr (List.take_prefix n (c :: cs))
    rw [hp, Bool.true_or]

/-- Every clip is a near-duplicate of itself. -/
theorem nearDup_self (a : Clip) : nearDup a a = true := by
  unfold nearDup
  rw [containsSeq_take, Bool.true_or, Bool.and_true]
  simp

/-- The near-duplicate test is symmetric. -/
theorem nearDup_symm (a b : Clip) : nearDup a b = nearDup b a := by
  unfold nearDup
  rw [abs_sub_comm, Bool.or_comm]

/-- Elements surviving the similarity fold come from the accumulator or the
remaining input. -/
theorem foldl_dedupe_sub (rest : List Clip) :
    ∀ (acc : List Clip), ∀ x ∈ rest.foldl dedupeStep acc, x ∈ acc ∨ x ∈ rest := by
  induction rest with
  | nil => intro acc x hx; exact Or.inl hx
  | cons r rs ih =>
    intro acc x hx
    rw [List.foldl_cons] at hx
    rcases ih (dedupeStep acc r) x hx with h | h
    · unfold dedupeStep at h
      split at h
      · exact Or.inl h
      · rcases List.mem_append.mp h with h | h
        · exact Or.inl h
        · exact Or.inr (List.mem_cons.mpr (Or.inl (List.mem_singleton.mp h)))
    · exact Or.inr (List.mem_cons_of_mem r h)

/-- When any two near-duplicate elements of the input are equal, the
similarity fold drops nothing: every accumulator element and every input
element appears in the result. -/
theorem foldl_dedupe_keep (l : List Clip)
    (hl : ∀ x ∈ l, ∀ y ∈ l, nearDup x y = true → x = y) :
    ∀ (rest : List Clip), (∀ r ∈ rest, r ∈ l) → ∀ (acc : List Clip), (∀ c ∈ acc, c ∈ l) →
      (∀ c ∈ acc, c ∈ rest.foldl dedupeStep acc) ∧
      (∀ x ∈ rest, x ∈ rest.foldl dedupeStep acc) := by
  intro rest
  induction rest with
  | nil =>
    intro _ acc _
    exact ⟨fun c hc => hc, fun x hx => absurd hx (List.not_mem_nil x)⟩
  | cons r rs ih =>
    intro hrl acc haccl
    have hrmem : r ∈ l := hrl r (List.mem_cons_self r rs)
    have hrsl : ∀ x ∈ rs, x ∈ l := fun x hx => hrl x (List.mem_cons_of_mem r hx)
    rw [List.foldl_cons]
    by_cases hany : acc.any (fun c => nearDup c r) = true
    · have hstep : dedupeStep acc r = acc := by unfold dedupeStep; rw [if_pos hany]
      rw [hstep]
      obtain ⟨c, hc, hcd⟩ := List.any_eq_true.mp hany
      have hcr : c = r := hl c (haccl c hc) r hrmem hcd
      obtain ⟨hkeep, hrest⟩ := ih hrsl acc haccl
      refine ⟨hkeep, fun x hx => ?_⟩
      rcases List.mem_cons.mp hx with h | h
      · exact h ▸ (hcr ▸ hkeep c hc)
      · exact hrest x h
    · have hstep : dedupeStep acc r = acc ++ [r] := by unfold dedupeStep; rw [if_neg hany]
      rw [hstep]
      have haccl2 : ∀ c ∈ acc ++ [r], c ∈ l := by
        intro c hc
        rcases List.mem_append.mp hc with h | h
        · exact haccl c h
        · exact (List.mem_singleton.mp h) ▸ hrmem
      obtain ⟨hkeep, hrest⟩ := ih hrsl (acc ++ [r]) haccl2
      refine ⟨fun c hc => hkeep c (List.mem_append_left _ hc), fun x hx => ?_⟩
      rcases List.mem_cons.mp hx with h | h
      · exact h ▸ hkeep r (List.mem_append_right _ (List.mem_singleton.mpr rfl))
      · exact hrest x h

/-- Under pairwise distinctness of near-duplicates the similarity pass keeps
every element. -/
theorem dedupeFold_complete (l : List Clip)
    (hl : ∀ x ∈ l, ∀ y ∈ l, nearDup x y = true → x = y) :
    ∀ x ∈ l, x ∈ dedupeFold l := by
  intro x hx
  exact ((foldl_dedupe_keep l hl l (fun r hr => hr) [] (by simp)).2) x hx

/-- The similarity fold grows the accumulator by at most one element per
input element. -/
theorem foldl_dedupe_length (rest : List Clip) :
    ∀ (acc : List Clip), (rest.foldl dedupeStep acc).length ≤ acc.length + rest.length := by
  induction rest with
  | nil => intro acc; simp
  | cons r rs ih =>
    intro acc
    rw [List.foldl_cons]
    have hstep : (dedupeStep acc r).length ≤ acc.length + 1 := by
      unfold dedupeStep
      split
      · omega
      · simp
    have := ih (dedupeStep acc r)
    simp only [List.length_cons]
    omega

/-- Members of a sorted bucket belong to the distributed clips and carry the
bucket's index. -/
theorem mem_sortedBucket (rem : List Clip) (b : ℕ) (x : Clip)
    (hx : x ∈ sortedBucketOf rem b) : x ∈ rem ∧ bucketIdxOf x = some b := by
  unfold sortedBucketOf at hx
  have hx2 : x ∈ bucketListOf rem b := (List.mem_mergeSort).mp hx
  unfold bucketListOf at hx2
  obtain ⟨hmem, hbeq⟩ := List.mem_filter.mp hx2
  exact ⟨hmem, by simpa using hbeq⟩

/-- Every clip drawn from the buckets was one of the distributed clips. -/
theorem mem_selectedFromBuckets (rem : List Clip) (rs : ℕ) (x : Clip)
    (hx : x ∈ selectedFromBucketsOf rem rs) : x ∈ rem := by
  unfold selectedFromBucketsOf at hx
  split at hx
  · rcases List.mem_append.mp hx with h | h
    · unfold picksOf at h
      obtain ⟨s, hs, hxs⟩ := List.mem_flatten.mp h
      obtain ⟨b, _, rfl⟩ := List.mem_map.mp hs
      exact (mem_sortedBucket rem b x (List.mem_of_mem_take hxs)).1
    · unfold fillOf at h
      split at h
      · have h2 := (List.mem_mergeSort).mp (List.mem_of_mem_take h)
        obtain ⟨s, hs, hxs⟩ := List.mem_flatten.mp h2
        obtain ⟨b, _, rfl⟩ := List.mem_map.mp hs
        exact (mem_sortedBucket rem b x (List.mem_of_mem_drop hxs)).1
      · exact absurd h (List.not_mem_nil x)
  · exact absurd hx (List.not_mem_nil x)

/-- Every clip in the combined selection comes from the preferred pool. -/
theorem mem_combined (scored : List Clip) (m : ℕ) (x : Clip)
    (hx : x ∈ combinedOf scored m) : x ∈ preferredOf scored m := by
  unfold combinedOf at hx
  rcases List.mem_append.mp hx with h | h
  · exact List.mem_of_mem_take h
  · exact List.mem_of_mem_drop (mem_selectedFromBuckets _ _ x h)

/-- When every clip ends with a complete sentence the preference step is the
identity. -/
theorem preferred_eq_of_complete (pool : List Clip) (m : ℕ)
    (hcomp : ∀ c ∈ pool, c.endsWithCompleteSentence = true) :
    preferredOf pool m = pool := by
  unfold preferredOf
  rw [List.filter_eq_self.mpr hcomp]
  show (if (⌈(m : ℚ) * 0.5⌉ : ℤ) ≤ (pool.length : ℤ) then pool else pool) = pool
  split <;> rfl

/-- Bucket indices range over 0..4. -/
theorem bucketIdx_lt5 (c : Clip) (b : ℕ) (h : bucketIdxOf c = some b) : b < 5 := by
  unfold bucketIdxOf at h
  split_ifs at h <;> simp_all <;> omega

/-- The 20-percent slice leaves at least five slots when maxClips is at
least seven. -/
theorem topCount_le (m : ℕ) (hm : 7 ≤ m) : topCountOf m ≤ m - 5 := by
  have h1 : (⌈(m : ℚ) * 0.2⌉ : ℤ) ≤ (m : ℤ) - 5 := by
    apply Int.ceil_le.mpr
    have h7 : (7 : ℚ) ≤ (m : ℚ) := by exact_mod_cast hm
    push_cast
    linarith
  unfold topCountOf
  omega

/-- A clip in some bucket makes the bucket count positive. -/
theorem nonEmptyBucketCount_pos (rem : List Clip) (h : 0 < totalInBuckets rem) :
    0 < nonEmptyBucketCount rem := by
  by_contra h0
  push_neg at h0
  have hk : nonEmptyBucketCount rem = 0 := Nat.le_zero.mp h0
  unfold nonEmptyBucketCount at hk
  have hnil := List.length_eq_zero.mp hk
  have hall := List.filter_eq_nil_iff.mp hnil
  have htot : totalInBuckets rem = 0 := by
    unfold totalInBuckets
    apply List.sum_eq_zero
    intro x hx
    obtain ⟨b, hb, rfl⟩ := List.mem_map.mp hx
    have := hall b hb
    simp at this
    rw [this]
    rfl
  omega

/-- Sum of per-list take lengths, bounded by the number of non-empty lists
times the slice size. -/
theorem sum_take_lengths_le (L : List (List Clip)) (cpb : ℕ) :
    ((L.map (fun s => ((s.take cpb).length))).sum) ≤
      (L.filter (fun s => !s.isEmpty)).length * cpb := by
  induction L with
  | nil => simp
  | cons s t ih =>
    simp only [List.map_cons, List.sum_cons, List.filter_cons]
    by_cases hs : s.isEmpty = true
    · have hs0 : s = [] := List.isEmpty_iff.mp hs
      subst hs0
      simpa using ih
    · have hkeep : (!s.isEmpty) = true := by simp [hs]
      rw [hkeep]
      simp only [List.length_cons]
      have h1 : (s.take cpb).length ≤ cpb := List.length_take_le cpb s
      have h2 := ih
      calc (s.take cpb).length + (t.map (fun s => ((s.take cpb).length))).sum
          ≤ cpb + (t.filter (fun s => !s.isEmpty)).length * cpb := by omega
        _ = ((t.filter (fun s => !s.isEmpty)).length + 1) * cpb := by ring

/-- Sorting a bucket does not change its emptiness. -/
theorem sortedBucket_isEmpty (rem : List Clip) (b : ℕ) :
    (sortedBucketOf rem b).isEmpty = (bucketListOf rem b).isEmpty := by
  rw [Bool.eq_iff_iff]
  simp only [List.isEmpty_iff_length_eq_zero]
  unfold sortedBucketOf
  rw [List.length_mergeSort]

/-- The per-bucket picks use at most clipsPerBucket slots per non-empty
bucket. -/
theorem picks_length_le (rem : List Clip) (cpb : ℕ) :
    (picksOf rem cpb).length ≤ nonEmptyBucketCount rem * cpb := by
  unfold picksOf
  rw [List.length_flatten, List.map_map]
  have hb := sum_take_lengths_le ((List.range 5).map (sortedBucketOf rem)) cpb
  rw [List.map_map] at hb
  have h2 : (((List.range 5).map (sortedBucketOf rem)).filter (fun s => !s.isEmpty)).length
      = nonEmptyBucketCount rem := by
    rw [List.filter_map, List.length_map]
    unfold nonEmptyBucketCount
    apply congrArg List.length
    apply List.filter_congr
    intro b _
    show (!(sortedBucketOf rem b).isEmpty) = (!(bucketListOf rem b).isEmpty)
    rw [sortedBucket_isEmpty]
  rw [h2] at hb
  exact hb

/-- The bucketed selection never exceeds the remaining slots once at least
five remain. -/
theorem selectedFromBuckets_length_le (rem : List Clip) (rs : ℕ) (hrs : 5 ≤ rs) :
    (selectedFromBucketsOf rem rs).length ≤ rs := by
  unfold selectedFromBucketsOf
  split
  case isTrue htot =>
    show (picksOf rem (cpbOf rem rs) ++
      fillOf rem (cpbOf rem rs) (picksOf rem (cpbOf rem rs)).length rs).length ≤ rs
    rw [List.length_append]
    have hk1 : 0 < nonEmptyBucketCount rem := nonEmptyBucketCount_pos rem htot
    have hk5 : nonEmptyBucketCount rem ≤ 5 := by
      have h := List.length_filter_le (fun b => !(bucketListOf rem b).isEmpty) (List.range 5)
      simpa [nonEmptyBucketCount] using h
    have hcpb : cpbOf rem rs = rs / nonEmptyBucketCount rem := by
      unfold cpbOf
      have h1 : 1 ≤ rs / nonEmptyBucketCount rem :=
        (Nat.one_le_div_iff hk1).mpr (le_trans hk5 hrs)
      omega
    have hpicks : (picksOf rem (cpbOf rem rs)).length ≤ rs := by
      calc (picksOf rem (cpbOf rem rs)).length
          ≤ nonEmptyBucketCount rem * cpbOf rem rs := picks_length_le rem _
        _ = rs / nonEmptyBucketCount rem * nonEmptyBucketCount rem := by
            rw [hcpb, Nat.mul_comm]
        _ ≤ rs := Nat.div_mul_le_self rs _
    have hfill : (fillOf rem (cpbOf rem rs) (picksOf rem (cpbOf rem rs)).length rs).length
        ≤ rs - (picksOf rem (cpbOf rem rs)).length := by
      unfold fillOf
      split
      · exact List.length_take_le _ _
      · simp
    omega
  case isFalse => simp

/-- Filtering with a weaker predicate keeps at least as many elements. -/
theorem filter_length_mono {α : Type} (p q : α → Bool) :
    ∀ (l : List α), (∀ b ∈ l, p b = true → q b = true) →
      (l.filter p).length ≤ (l.filter q).length := by
  intro l
  induction l with
  | nil => intro _; simp
  | cons x t ih =>
    intro h
    have ht := ih (fun b hb => h b (List.mem_cons_of_mem x hb))
    simp only [List.filter_cons]
    by_cases hp : p x = true
    · rw [if_pos hp, if_pos (h x (List.mem_cons_self x t) hp)]
      simp only [List.length_cons]
      omega
    · rw [if_neg hp]
      by_cases hq : q x = true
      · rw [if_pos hq]
        simp only [List.length_cons]
        omega
      · rw [if_neg hq]
        exact ht

/-- Every duration bucket occupied by an all-complete pool keeps a
representative in the combined selection. -/
theorem bucket_represented (pool : List Clip) (m : ℕ) (b : ℕ)
    (hcomp : ∀ c ∈ pool, c.endsWithCompleteSentence = true)
    (hex : ∃ c ∈ pool, bucketIdxOf c = some b) :
    ∃ y ∈ combinedOf pool m, bucketIdxOf y = some b := by
  obtain ⟨c, hcpool, hcb⟩ := hex
  have hb5 : b < 5 := bucketIdx_lt5 c b hcb
  have hpref : preferredOf pool m = pool := preferred_eq_of_complete pool m hcomp
  have hsplit : c ∈ (preferredOf pool m).take (topCountOf m) ++
      (preferredOf pool m).drop (topCountOf m) := by
    rw [List.take_append_drop, hpref]
    exact hcpool
  rcases List.mem_append.mp hsplit with htop | hrem
  · exact ⟨c, List.mem_append_left _ htop, hcb⟩
  · have hcrem : c ∈ remainingOf pool m := hrem
    have hcbl : c ∈ bucketListOf (remainingOf pool m) b := by
      unfold bucketListOf
      exact List.mem_filter.mpr ⟨hcrem, by simp [hcb]⟩
    have htot : 0 < totalInBuckets (remainingOf pool m) := by
      unfold totalInBuckets
      have hmem : (bucketListOf (remainingOf pool m) b).length ∈
          (List.range 5).map (fun b => (bucketListOf (remainingOf pool m) b).length) :=
        List.mem_map.mpr ⟨b, List.mem_range.mpr hb5, rfl⟩
      have hpos : 0 < (bucketListOf (remainingOf pool m) b).length :=
        List.length_pos.mpr (List.ne_nil_of_mem hcbl)
      have hle := List.single_le_sum (fun x _ => Nat.zero_le x) _ hmem
      omega
    have hcs : c ∈ sortedBucketOf (remainingOf pool m) b := by
      unfold sortedBucketOf
      exact (List.mem_mergeSort).mpr hcbl
    obtain ⟨y, t, hyt⟩ := List.exists_cons_of_ne_nil (List.ne_nil_of_mem hcs)
    have hcpb : 1 ≤ cpbOf (remainingOf pool m) (m - (topClipsOf pool m).length) :=
      le_max_left 1 _
    have hy : y ∈ (sortedBucketOf (remainingOf pool m) b).take
        (cpbOf (remainingOf pool m) (m - (topClipsOf pool m).length)) := by
      rw [hyt]
      cases hc2 : cpbOf (remainingOf pool m) (m - (topClipsOf pool m).length) with
      | zero => exact absurd (hc2 ▸ hcpb) (by decide)
      | succ n =>
        rw [List.take_succ_cons]
        exact List.mem_cons_self y _
    have hysb : y ∈ sortedBucketOf (remainingOf pool m) b := by
      rw [hyt]
      exact List.mem_cons_self y t
    have hyb : bucketIdxOf y = some b := (mem_sortedBucket _ b y hysb).2
    refine ⟨y, ?_, hyb⟩
    apply List.mem_append_right
    show y ∈ selectedFromBucketsOf (remainingOf pool m) (m - (topClipsOf pool m).length)
    unfold selectedFromBucketsOf
    rw [if_pos htot]
    show y ∈ picksOf (remainingOf pool m)
        (cpbOf (remainingOf pool m) (m - (topClipsOf pool m).length)) ++
      fillOf (remainingOf pool m)
        (cpbOf (remainingOf pool m) (m - (topClipsOf pool m).length))
        (picksOf (remainingOf pool m)
          (cpbOf (remainingOf pool m) (m - (topClipsOf pool m).length))).length
        (m - (topClipsOf pool m).length)
    apply List.mem_append_left
    unfold picksOf
    exact List.mem_flatten.mpr
      ⟨(sortedBucketOf (remainingOf pool m) b).take
          (cpbOf (remainingOf pool m) (m - (topClipsOf pool m).length)),
        List.mem_map.mpr ⟨b, List.mem_range.mpr hb5, rfl⟩, hy⟩

/-- C7 (amended): getDiverseClipSelectionWithDurations returns at most
maxClips clips for every input, and preserves a span of at least three
duration buckets provided every candidate ends with a complete sentence, no
two distinct candidates are near-duplicates, and maxClips is at least
seven. The unconditional form of the span claim is refuted by
C7_counterexample. -/
theorem C7_diversity_amended (pool : List Clip) (m : ℕ) :
    (getDiverseClipSelectionWithDurations pool m).length ≤ m ∧
    ((∀ c ∈ pool, c.endsWithCompleteSentence = true) →
      pool.Pairwise (fun a b => nearDup a b = false) →
      7 ≤ m →
      3 ≤ bucketSpan pool →
      3 ≤ bucketSpan (getDiverseClipSelectionWithDurations pool m)) := by
  constructor
  · unfold getDiverseClipSelectionWithDurations
    exact List.length_take_le m _
  intro hcomp hdup hm hspan
  have hsub : ∀ x ∈ combinedOf pool m, x ∈ pool := by
    intro x hx
    have h := mem_combined pool m x hx
    rwa [preferred_eq_of_complete pool m hcomp] at h
  have hsymm : Symmetric (fun a b : Clip => nearDup a b = false) := by
    intro a b hab
    rw [nearDup_symm]
    exact hab
  have hpair := List.Pairwise.forall hsymm hdup
  have hl : ∀ x ∈ combinedOf pool m, ∀ y ∈ combinedOf pool m, nearDup x y = true → x = y := by
    intro x hx y hy hxy
    by_contra hne
    have hfalse := hpair (hsub x hx) (hsub y hy) hne
    rw [hfalse] at hxy
    exact Bool.false_ne_true hxy
  have hclen : (combinedOf pool m).length ≤ m := by
    have htc : topCountOf m ≤ m - 5 := topCount_le m hm
    have htop : (topClipsOf pool m).length ≤ topCountOf m := List.length_take_le _ _
    have hrs : 5 ≤ m - (topClipsOf pool m).length := by omega
    have hsel := selectedFromBuckets_length_le (remainingOf pool m)
      (m - (topClipsOf pool m).length) hrs
    unfold combinedOf
    rw [List.length_append]
    omega
  have hdlen : (dedupeFold (combinedOf pool m)).length ≤ m := by
    have h := foldl_dedupe_length (combinedOf pool m) []
    unfold dedupeFold
    simp only [List.length_nil] at h
    omega
  have hout : getDiverseClipSelectionWithDurations pool m = dedupeFold (combinedOf pool m) := by
    unfold getDiverseClipSelectionWithDurations
    exact List.take_of_length_le hdlen
  rw [hout]
  refine le_trans hspan ?_
  unfold bucketSpan
  apply filter_length_mono
  intro b _ hpb
  obtain ⟨c, hc, hcbeq⟩ := List.any_eq_true.mp hpb
  have hcb : bucketIdxOf c = some b := by simpa using hcbeq
  obtain ⟨y, hy, hyb⟩ := bucket_represented pool m b hcomp ⟨c, hc, hcb⟩
  exact List.any_eq_true.mpr
    ⟨y, dedupeFold_complete (combinedOf pool m) hl y hy, by simp [hyb]⟩

/-- A three-bucket all-complete pool with well-separated start times. -/
def c7WitnessPool : List Clip :=
  [{ start := 0
     endTime := 8
     duration := 8
     qualityScore := 3
     endsWithCompleteSentence := true },
   { start := 100
     endTime := 112
     duration := 12
     qualityScore := 2
     endsWithCompleteSentence := true },
   { start := 200
     endTime := 218
     duration := 18
     qualityScore := 1
     endsWithCompleteSentence := true }]

/-- C7 witness: the amended diversity theorem applied to a concrete pool
spanning the 5-10, 10-15 and 15-20 second buckets. -/
theorem C7_witness :
    (getDiverseClipSelectionWithDurations c7WitnessPool 7).length ≤ 7 ∧
    3 ≤ bucketSpan (getDiverseClipSelectionWithDurations c7WitnessPool 7) :=
  ⟨(C7_diversity_amended c7WitnessPool 7).1,
   (C7_diversity_amended c7WitnessPool 7).2
     (by with_unfolding_all decide)
     (by with_unfolding_all decide)
     (by decide)
     (by with_unfolding_all decide)⟩
